import Mathlib

set_option maxRecDepth 20000

/-!
# Verification of `generate-qrcodes-ts.py`

A shallow embedding of the SVG-normalizer and TypeScript-export emitter in
`apps/cf-playwrightiut-worker/src/qrcodes/generate-qrcodes-ts.py`, together
with theorems settling the specification claims about it.

Modelling conventions:
* Python `float` values are modelled as exact rationals (`Frac` below).
  All numeric values reached by the claims are small decimals for which
  binary floating point arithmetic is exact, so the rational model agrees
  with CPython on every input used here.
* Element trees are modelled by `Node` below.  ElementTree stores
  namespace-qualified tags; with the script's `register_namespace` calls the
  default SVG namespace serializes without a prefix, so tags of
  SVG-namespace documents are represented by their local names ("svg", "g")
  and namespace declarations ride along as ordinary attributes.
* Exceptions are modelled by `Except PyError`.
-/

inductive PyError where
  | valueError
  | zeroDivisionError
deriving DecidableEq, Repr

instance {ε α : Type} [DecidableEq ε] [DecidableEq α] : DecidableEq (Except ε α)
  | .error e, .error f =>
    if h : e = f then .isTrue (by rw [h]) else .isFalse (by simp [h])
  | .error _, .ok _ => .isFalse (by simp)
  | .ok _, .error _ => .isFalse (by simp)
  | .ok a, .ok b =>
    if h : a = b then .isTrue (by rw [h]) else .isFalse (by simp [h])

/-! ## Decimal digits and rational formatting -/

def isAsciiDigit (c : Char) : Bool :=
  '0' ≤ c && c ≤ '9'

def digitVal (c : Char) : Nat :=
  c.toNat - '0'.toNat

def natOfDigits (l : List Char) : Nat :=
  l.foldl (fun a c => a * 10 + digitVal c) 0

def spanDigits : List Char → (List Char × List Char)
  | [] => ([], [])
  | c :: r =>
    if isAsciiDigit c then
      let p := spanDigits r
      (c :: p.1, p.2)
    else ([], c :: r)

def natDigitsAux : Nat → Nat → List Char → List Char
  | 0, _, acc => acc
  | f + 1, n, acc =>
    let d := Char.ofNat (48 + n % 10)
    if n < 10 then d :: acc else natDigitsAux f (n / 10) (d :: acc)

/-- Decimal rendering of a natural number ("0" for 0). -/
def natDigitsStr (n : Nat) : String :=
  ⟨natDigitsAux (n + 1) n []⟩

/-! ## Exact rational numbers

An unreduced fraction with a positive denominator.  Every construction
below keeps the denominator positive; fractions are compared through their
decimal renderings, never structurally, so no normalization invariant is
needed on the raw data. -/

structure Frac where
  num : Int
  den : Nat
deriving DecidableEq, Repr

def Frac.ofNat (n : Nat) : Frac := ⟨(n : Int), 1⟩

def Frac.mul (a b : Frac) : Frac := ⟨a.num * b.num, a.den * b.den⟩

/-- Exact division; callers guard against a zero divisor. -/
def Frac.div (a b : Frac) : Frac :=
  if b.num < 0 then ⟨-(a.num * (b.den : Int)), a.den * b.num.natAbs⟩
  else ⟨a.num * (b.den : Int), a.den * b.num.natAbs⟩

def Frac.neg (a : Frac) : Frac := ⟨-a.num, a.den⟩

def Frac.isNeg (a : Frac) : Bool := a.num < 0

def Frac.floor (a : Frac) : Int := Int.fdiv a.num (a.den : Int)

def natGcdAux : Nat → Nat → Nat → Nat
  | 0, _, y => y
  | f + 1, x, y => if x = 0 then y else natGcdAux f (y % x) x

/-- Euclid's algorithm (fuel `x + 1` suffices: the first argument strictly
decreases at every step). -/
def natGcd (x y : Nat) : Nat :=
  natGcdAux (x + 1) x y

/-! ## Python `float()` on decimal literals

Models CPython's `float(str)` for ordinary decimal literals: optional
surrounding ASCII whitespace, an optional sign, a mantissa made of digits
with an optional decimal point, and an optional exponent.  The special forms
`inf`/`nan` and digit-group underscores are outside the modelled fragment
(no claim exercises them); on those this function returns `none`. -/

def isPyWs (c : Char) : Bool :=
  c = ' ' || c = '\t' || c = '\n' || c = '\r' || c = Char.ofNat 11 || c = Char.ofNat 12

def dropWsLeft : List Char → List Char
  | [] => []
  | c :: r => if isPyWs c then dropWsLeft r else c :: r

def trimWs (l : List Char) : List Char :=
  (dropWsLeft ((dropWsLeft l.reverse).reverse))

def pyFloatExponentDigits (negative : Bool) (r2 : List Char) : Option (Int × List Char) :=
  match spanDigits r2 with
  | ([], _) => none
  | (ds, r3) =>
    some (if negative then -(natOfDigits ds : Int) else (natOfDigits ds : Int), r3)

def pyFloatExponentPart (l : List Char) : Option (Int × List Char) :=
  match l with
  | c :: r =>
    if c = 'e' || c = 'E' then
      match r with
      | '+' :: r2 => pyFloatExponentDigits false r2
      | '-' :: r2 => pyFloatExponentDigits true r2
      | _ => pyFloatExponentDigits false r
    else some (0, l)
  | [] => some (0, [])

def pyFloatMantissa (l : List Char) : Option (Frac × List Char) :=
  match spanDigits l with
  | (intDs, rest) =>
    match rest with
    | '.' :: r2 =>
      match spanDigits r2 with
      | (fracDs, r3) =>
        if intDs = [] && fracDs = [] then none
        else some (⟨(natOfDigits intDs * 10 ^ fracDs.length + natOfDigits fracDs : Nat),
                    10 ^ fracDs.length⟩, r3)
    | _ => if intDs = [] then none else some (⟨(natOfDigits intDs : Nat), 1⟩, rest)

/-- Scale an exact decimal mantissa by `10 ^ e`. -/
def Frac.scale10 (m : Frac) (e : Int) : Frac :=
  match e with
  | .ofNat k => ⟨m.num * (10 ^ k : Nat), m.den⟩
  | .negSucc k => ⟨m.num, m.den * 10 ^ (k + 1)⟩

def pyFloatCore (l : List Char) : Option Frac := do
  let (neg, l1) :=
    match l with
    | '+' :: r => (false, r)
    | '-' :: r => (true, r)
    | _ => (false, l)
  let (m, l2) ← pyFloatMantissa l1
  let (e, l3) ← pyFloatExponentPart l2
  if l3 = [] then
    some (if neg then (m.scale10 e).neg else m.scale10 e)
  else none

/-- `float(s)` for a decimal-literal string `s` (see `pyFloatCore`). -/
def pyFloat (s : String) : Option Frac :=
  pyFloatCore (trimWs s.data)

/-! ## Python float formatting -/

def countFactorAux (p : Nat) : Nat → Nat → Nat
  | 0, _ => 0
  | f + 1, n => if 2 ≤ p ∧ 0 < n ∧ n % p = 0 then countFactorAux p f (n / p) + 1 else 0

/-- Multiplicity of the prime `p` in `n` (fuel `n` suffices: each division
by `p ≥ 2` at least halves the argument). -/
def countFactor (p n : Nat) : Nat :=
  countFactorAux p n n

def padZeros (k : Nat) (s : String) : String :=
  ⟨List.replicate (k - s.length) '0' ++ s.data⟩

/-- Models `repr`/f-string rendering of a CPython float whose value is an
exact decimal in the fixed-point regime (magnitude below 10^16, at least
10^-4 or zero): the shortest decimal expansion, with ".0" appended to
integral values.  All `x`/`y` values exercised by the claims are in this
regime. -/
def pyReprFloat (q : Frac) : String :=
  let sign := if q.isNeg then "-" else ""
  let g := natGcd q.num.natAbs q.den
  let n := q.num.natAbs / g
  let d := q.den / g
  if d = 1 then sign ++ natDigitsStr n ++ ".0"
  else
    let k := max (countFactor 2 d) (countFactor 5 d)
    if n * 10 ^ k % d = 0 then
      let m := n * 10 ^ k / d
      sign ++ natDigitsStr (m / 10 ^ k) ++ "." ++ padZeros k (natDigitsStr (m % 10 ^ k))
    else
      sign ++ natDigitsStr n ++ "/" ++ natDigitsStr d

/-- Round to the nearest integer, ties to even (the rounding used by
CPython's fixed-point float formatting). -/
def roundHalfEven (q : Frac) : Int :=
  let fl := q.floor
  let r := q.num - fl * (q.den : Int)
  if 2 * r < (q.den : Int) then fl
  else if (q.den : Int) < 2 * r then fl + 1
  else if fl % 2 = 0 then fl else fl + 1

/-- Models `f'{v:.3f}'`: fixed-point rendering with exactly three decimals. -/
def pyFormat3f (q : Frac) : String :=
  let m := roundHalfEven ⟨q.num * 1000, q.den⟩
  let a := m.natAbs
  (if m < 0 then "-" else "") ++ natDigitsStr (a / 1000) ++ "." ++ padZeros 3 (natDigitsStr (a % 1000))

/-- The transform attribute value
`f'translate({x},{y}) scale({scale_x:.3f},{scale_y:.3f})'`. -/
def transformAttrValue (x y sx sy : Frac) : String :=
  "translate(" ++ pyReprFloat x ++ "," ++ pyReprFloat y ++ ") scale(" ++
    pyFormat3f sx ++ "," ++ pyFormat3f sy ++ ")"

/-! ## The viewBox regular expression

`re.match(r'0 0 (\d+) (\d+)', viewBox)` anchors at the start of the string
only: it requires the literal prefix "0 0 ", then a maximal nonempty digit
run, a space, and a second maximal nonempty digit run; anything may follow.
Both groups are digit strings, so the subsequent `float()` calls on them
cannot fail and yield their integer values, returned here as naturals. -/
def reMatchViewBox (s : String) : Option (Nat × Nat) :=
  match s.data with
  | '0' :: ' ' :: '0' :: ' ' :: r =>
    match spanDigits r with
    | ([], _) => none
    | (d1, r1) =>
      match r1 with
      | ' ' :: r2 =>
        match spanDigits r2 with
        | ([], _) => none
        | (d2, _) => some (natOfDigits d1, natOfDigits d2)
      | _ => none
  | _ => none

/-! ## Attribute dictionaries

ElementTree attribute dictionaries preserve insertion order and have unique
keys; they are modelled as ordered association lists. -/

abbrev AttrList := List (String × String)

def getAttr : AttrList → String → Option String
  | [], _ => none
  | (k', v) :: r, k => if k' = k then some v else getAttr r k

/-- `elem.get(k, d)` with a string default. -/
def getAttrD (attrs : AttrList) (k d : String) : String :=
  (getAttr attrs k).getD d

/-- `elem.attrib[k] = v`: replaces the value in place when the key is
present, appends otherwise. -/
def setAttr : AttrList → String → String → AttrList
  | [], k, v => [(k, v)]
  | (k', v') :: r, k, v => if k' = k then (k, v) :: r else (k', v') :: setAttr r k v

/-- `elem.attrib.pop(a, None)` for each `a` in `ks`: drops every pair
whose key is listed. -/
def removeAttrs : AttrList → List String → AttrList
  | [], _ => []
  | (k, v) :: r, ks =>
    if ks.contains k then removeAttrs r ks else (k, v) :: removeAttrs r ks

def removedAttrNames : List String :=
  ["x", "y", "width", "height", "viewBox", "fill", "overflow"]

/-- `s.replace('px', '')`: removes every (left-to-right, non-overlapping)
occurrence of "px", not only a trailing unit suffix. -/
def removePxChars : List Char → List Char
  | 'p' :: 'x' :: r => removePxChars r
  | c :: r => c :: removePxChars r
  | [] => []

def pyReplacePx (s : String) : String :=
  ⟨removePxChars s.data⟩

/-- `float(elem.get(k, 0))`: the attribute value parsed as a float, or 0.0
when the attribute is absent (`float(0)`). `none` models an uncaught
`ValueError`. -/
def pyFloatAttr (attrs : AttrList) (k : String) : Option Frac :=
  match getAttr attrs k with
  | some s => pyFloat s
  | none => some ⟨0, 1⟩

/-! ## The per-element rewrite step

The body of the `for svg_elem in root.findall(...)` loop for one candidate
element (one whose tag is the nested `svg` tag and which has both `x` and
`y` attributes), lines 63-97 of the script.  `Except.ok none` means the
element is left unmodified; `Except.ok (some attrs')` means its tag becomes
`g` and its attributes become `attrs'`.  The `x`/`y` `float()` calls sit
outside the `try/except ValueError`, so their failures (and the
`ZeroDivisionError` of a zero viewBox dimension) escape as errors, while
`float(width)`/`float(height)` failures are caught and skip the element. -/
def rewriteSvgElem (attrs : AttrList) : Except PyError (Option AttrList) :=
  match pyFloatAttr attrs "x" with
  | none => .error .valueError
  | some x =>
    match pyFloatAttr attrs "y" with
    | none => .error .valueError
    | some y =>
      let width := pyReplacePx (getAttrD attrs "width" "")
      let height := pyReplacePx (getAttrD attrs "height" "")
      let viewBox := getAttrD attrs "viewBox" ""
      if width ≠ "" ∧ height ≠ "" ∧ viewBox ≠ "" then
        match reMatchViewBox viewBox with
        | none => .ok none
        | some (vbw, vbh) =>
          match pyFloat width with
          | none => .ok none
          | some widthNum =>
            match pyFloat height with
            | none => .ok none
            | some heightNum =>
              if vbw = 0 then .error .zeroDivisionError
              else
                let scaleX := widthNum.div (Frac.ofNat vbw)
                if vbh = 0 then .error .zeroDivisionError
                else
                  let scaleY := heightNum.div (Frac.ofNat vbh)
                  .ok (some (removeAttrs
                    (setAttr attrs "transform" (transformAttrValue x y scaleX scaleY))
                    removedAttrNames))
      else .ok none

/-! ## Element trees -/

inductive Node where
  | element (tag : String) (attribs : AttrList) (children : List Node)
  | text (s : String)

/-- The candidate filter of the loop: a nested element with the `svg` tag
carrying both `x` and `y` attributes. -/
def isCandidate (tag : String) (attrs : AttrList) : Bool :=
  tag = "svg" && (getAttr attrs "x").isSome && (getAttr attrs "y").isSome

/-! `root.findall('.//svg')` materializes all `svg`-tagged descendants in
document (pre-)order before any mutation, and each iteration mutates only
the current element's tag and attributes, so membership and order of the
list are unaffected by the mutations.  The loop is therefore equivalent to
the following pre-order traversal that attempts the rewrite at every
descendant and propagates the first uncaught exception. -/
mutual

def processNode : Node → Except PyError Node
  | .text s => .ok (.text s)
  | .element tag attrs children =>
    match (if isCandidate tag attrs then rewriteSvgElem attrs else .ok none) with
    | .error e => .error e
    | .ok res =>
      let p := match res with
        | some a => ("g", a)
        | none => (tag, attrs)
      match processChildren children with
      | .error e => .error e
      | .ok cs => .ok (.element p.1 p.2 cs)

def processChildren : List Node → Except PyError (List Node)
  | [] => .ok []
  | n :: ns =>
    match processNode n with
    | .error e => .error e
    | .ok n' =>
      match processChildren ns with
      | .error e => .error e
      | .ok ns' => .ok (n' :: ns')

end

/-- The whole-tree pass: the descendant axis `.//` excludes the document
root, so the root element itself is never a rewrite candidate. -/
def processRoot : Node → Except PyError Node
  | .text s => .ok (.text s)
  | .element tag attrs children =>
    match processChildren children with
    | .error e => .error e
    | .ok cs => .ok (.element tag attrs cs)

/-! ## Serialization

Models `ET.tostring(root, encoding='unicode')` for documents in the
registered default SVG namespace: tags render as their local names,
attributes in insertion order wrapped in double quotes, text escaped with
the five predefined entities that ElementTree uses (`&` `<` `>` in
character data; additionally `"` and character references for CR, LF and
TAB in attribute values; a raw CR in character data is written unescaped),
and childless elements self-close as `<tag />`. -/

def escTextChar (c : Char) : List Char :=
  if c = '&' then "&amp;".data
  else if c = '<' then "&lt;".data
  else if c = '>' then "&gt;".data
  else [c]

def escTextChars : List Char → List Char
  | [] => []
  | c :: r => escTextChar c ++ escTextChars r

def escAttribChar (c : Char) : List Char :=
  if c = '&' then "&amp;".data
  else if c = '<' then "&lt;".data
  else if c = '>' then "&gt;".data
  else if c = '"' then "&quot;".data
  else if c = '\r' then "&#13;".data
  else if c = '\n' then "&#10;".data
  else if c = '\t' then "&#09;".data
  else [c]

def escAttribChars : List Char → List Char
  | [] => []
  | c :: r => escAttribChar c ++ escAttribChars r

def serializeAttrs : AttrList → List Char
  | [] => []
  | (k, v) :: r => ' ' :: (k.data ++ '=' :: '"' :: (escAttribChars v.data ++ '"' :: serializeAttrs r))

mutual

def serializeNode : Node → List Char
  | .text s => escTextChars s.data
  | .element tag attrs children =>
    '<' :: (tag.data ++ serializeAttrs attrs ++
      match children with
      | [] => [' ', '/', '>']
      | _ => '>' :: (serializeNodes children ++ '<' :: '/' :: (tag.data ++ ['>'])))

def serializeNodes : List Node → List Char
  | [] => []
  | n :: ns => serializeNode n ++ serializeNodes ns

end

def serializeXml (n : Node) : String :=
  ⟨serializeNode n⟩

/-! ## Parsing

Models `ET.fromstring` (expat) on the XML fragment the tool's inputs live
in: one root element, nested elements, attributes in either quote style,
character data with the five predefined entities and decimal character
references.  Comments, processing instructions, CDATA sections, doctypes
and namespace prefixes are outside the fragment (such inputs are treated as
failing to parse).  As expat does, the parser normalizes line endings
(CR and CR LF become LF in character data, and whitespace becomes a plain
space inside attribute values — character references are exempt), and it
rejects duplicate attribute names. -/

def isXmlWs (c : Char) : Bool :=
  c = ' ' || c = '\n' || c = '\t' || c = '\r'

def skipWs : List Char → List Char
  | [] => []
  | c :: r => if isXmlWs c then skipWs r else c :: r

def isNameStartChar (c : Char) : Bool :=
  c.isAlpha || c = '_' || c = ':'

def isNameChar (c : Char) : Bool :=
  isNameStartChar c || c.isDigit || c = '-' || c = '.'

def spanWhile (p : Char → Bool) : List Char → (List Char × List Char)
  | [] => ([], [])
  | c :: r =>
    if p c then
      let q := spanWhile p r
      (c :: q.1, q.2)
    else ([], c :: r)

def parseNameTok : List Char → Option (String × List Char)
  | [] => none
  | c :: r =>
    if isNameStartChar c then
      let q := spanWhile isNameChar r
      some (⟨c :: q.1⟩, q.2)
    else none

def parseRef : List Char → Option (Char × List Char)
  | '&' :: 'a' :: 'm' :: 'p' :: ';' :: r => some ('&', r)
  | '&' :: 'l' :: 't' :: ';' :: r => some ('<', r)
  | '&' :: 'g' :: 't' :: ';' :: r => some ('>', r)
  | '&' :: 'q' :: 'u' :: 'o' :: 't' :: ';' :: r => some ('"', r)
  | '&' :: 'a' :: 'p' :: 'o' :: 's' :: ';' :: r => some ('\'', r)
  | '&' :: '#' :: r =>
    (match spanDigits r with
     | ([], _) => none
     | (ds, r1) =>
       match r1 with
       | ';' :: r2 =>
         let n := natOfDigits ds
         if Nat.isValidChar n then some (Char.ofNat n, r2) else none
       | _ => none)
  | _ => none

def parseAttrValueAux (quote : Char) : Nat → List Char → Option (List Char × List Char)
  | 0, _ => none
  | _ + 1, [] => none
  | f + 1, c :: rest =>
    if c = quote then some ([], rest)
    else if c = '<' then none
    else if c = '&' then
      match parseRef (c :: rest) with
      | some (ch, r1) =>
        (match parseAttrValueAux quote f r1 with
         | some (v, r2) => some (ch :: v, r2)
         | none => none)
      | none => none
    else if c = '\r' then
      match rest with
      | '\n' :: r1 =>
        (match parseAttrValueAux quote f r1 with
         | some (v, r2) => some (' ' :: v, r2)
         | none => none)
      | _ =>
        (match parseAttrValueAux quote f rest with
         | some (v, r2) => some (' ' :: v, r2)
         | none => none)
    else if c = '\n' || c = '\t' then
      match parseAttrValueAux quote f rest with
      | some (v, r2) => some (' ' :: v, r2)
      | none => none
    else
      match parseAttrValueAux quote f rest with
      | some (v, r2) => some (c :: v, r2)
      | none => none

def parseAttrs : Nat → List String → List Char → Option (AttrList × List Char)
  | 0, _, _ => none
  | f + 1, seen, input =>
    match skipWs input with
    | [] => none
    | c :: rest =>
      if c = '>' || c = '/' then some ([], c :: rest)
      else
        match parseNameTok (c :: rest) with
        | none => none
        | some (k, r1) =>
          if seen.contains k then none
          else
            match skipWs r1 with
            | [] => none
            | c1 :: r2 =>
              if c1 = '=' then
                match skipWs r2 with
                | q :: r3 =>
                  if q = '"' || q = '\'' then
                    match parseAttrValueAux q (r3.length + 1) r3 with
                    | some (v, r4) =>
                      (match parseAttrs f (k :: seen) r4 with
                       | some (as, r5) => some ((k, ⟨v⟩) :: as, r5)
                       | none => none)
                    | none => none
                  else none
                | [] => none
              else none

def headIsSlash : List Char → Bool
  | c :: _ => c = '/'
  | [] => false

def parseTextAux : Nat → List Char → Option (List Char × List Char)
  | 0, _ => none
  | _ + 1, [] => some ([], [])
  | f + 1, c :: rest =>
    if c = '<' then some ([], c :: rest)
    else if c = '&' then
      match parseRef (c :: rest) with
      | some (ch, r1) =>
        (match parseTextAux f r1 with
         | some (v, r2) => some (ch :: v, r2)
         | none => none)
      | none => none
    else if c = '\r' then
      match rest with
      | '\n' :: r1 =>
        (match parseTextAux f r1 with
         | some (v, r2) => some ('\n' :: v, r2)
         | none => none)
      | _ =>
        (match parseTextAux f rest with
         | some (v, r2) => some ('\n' :: v, r2)
         | none => none)
    else
      match parseTextAux f rest with
      | some (v, r2) => some (c :: v, r2)
      | none => none

mutual

def parseElement : Nat → List Char → Option (Node × List Char)
  | 0, _ => none
  | fuel + 1, input =>
    match input with
    | [] => none
    | c :: r0 =>
      if c = '<' then
        match parseNameTok r0 with
        | none => none
        | some (tag, r1) =>
          match parseAttrs (r1.length + 1) [] r1 with
          | none => none
          | some (attrs, r2) =>
            match r2 with
            | [] => none
            | c2 :: r3 =>
              if c2 = '/' then
                match r3 with
                | c3 :: r4 => if c3 = '>' then some (.element tag attrs [], r4) else none
                | [] => none
              else if c2 = '>' then
                match parseNodes fuel r3 with
                | none => none
                | some (children, r4) =>
                  (match r4 with
                   | c4 :: c5 :: r5 =>
                     if c4 = '<' && c5 = '/' then
                       match parseNameTok r5 with
                       | none => none
                       | some (cname, r6) =>
                         if cname = tag then
                           match skipWs r6 with
                           | c6 :: r7 =>
                             if c6 = '>' then some (.element tag attrs children, r7) else none
                           | [] => none
                         else none
                     else none
                   | _ => none)
              else none
      else none

def parseNodes : Nat → List Char → Option (List Node × List Char)
  | 0, _ => none
  | fuel + 1, input =>
    match input with
    | [] => none
    | c :: r =>
      if c = '<' then
        if headIsSlash r then some ([], c :: r)
        else
          match parseElement fuel (c :: r) with
          | none => none
          | some (n, r1) =>
            (match parseNodes fuel r1 with
             | none => none
             | some (ns, r2) => some (n :: ns, r2))
      else
        match parseTextAux ((c :: r).length + 1) (c :: r) with
        | none => none
        | some (t, r1) =>
          (match parseNodes fuel r1 with
           | none => none
           | some (ns, r2) => some (.text ⟨t⟩ :: ns, r2))

end

/-- `ET.fromstring` on the modelled fragment; `none` is a parse error. -/
def parseXml (s : String) : Option Node :=
  match parseElement (s.data.length + 1) (skipWs s.data) with
  | none => none
  | some (t, r) => if skipWs r = [] then some t else none

/-! ## The normalizer and the emitter -/

/-- `process_svg_file` applied to the file's content: on a parse error the
original text is returned unchanged (the printed notice is a side channel
outside the model); otherwise the rewritten tree is serialized back to
text.  An uncaught Python exception is an `Except.error`. -/
def processSvgContent (content : String) : Except PyError String :=
  match parseXml content with
  | none => .ok content
  | some root =>
    match processRoot root with
    | .error e => .error e
    | .ok r => .ok (serializeXml r)

/-- `svg_content.replace(chr(96), chr(92) ++ chr(96))`: escapes each
backtick with a preceding backslash. -/
def escBacktickChar (c : Char) : List Char :=
  if c = Char.ofNat 96 then ['\\', Char.ofNat 96] else [c]

def escapeBackticksChars : List Char → List Char
  | [] => []
  | c :: r => escBacktickChar c ++ escapeBackticksChars r

def escapeBackticks (s : String) : String :=
  ⟨escapeBackticksChars s.data⟩

/-- The fixed header comment `main` writes before any export. -/
def headerText : String :=
  "/**\n * QR code SVG exports generated from SVG files\n * Generated by generate-qrcodes-ts script\n */\n"

/-- The per-file fragment `main` appends for one group name and its
escaped content. -/
def exportFragment (groupName escaped : String) : String :=
  "\n// " ++ groupName ++ " QR Code SVG\nexport const QRCode_" ++ groupName ++
    " = `" ++ escaped ++ "`;\n"

/-- `filename.endswith('.svg')` (case-sensitive). -/
def endsWithDotSvg (s : String) : Bool :=
  match s.data.reverse with
  | 'g' :: 'v' :: 's' :: '.' :: _ => true
  | _ => false

/-- `filename[:-4]`: the filename with its last four characters removed. -/
def dropLast4 (s : String) : String :=
  ⟨s.data.take (s.data.length - 4)⟩

/-- The loop body of `main` over one directory listing, given as the list
of (filename, file content) pairs in listing order: files ending in ".svg"
are normalized, backtick-escaped and appended; a Python exception aborts
the run. -/
def generateEntries : List (String × String) → Except PyError String
  | [] => .ok ""
  | (fname, content) :: rest =>
    if endsWithDotSvg fname then
      match processSvgContent content with
      | .error e => .error e
      | .ok processed =>
        (match generateEntries rest with
         | .error e => .error e
         | .ok out => .ok (exportFragment (dropLast4 fname) (escapeBackticks processed) ++ out))
    else generateEntries rest

/-- The full output document `main` produces. -/
def generateQrcodesTs (files : List (String × String)) : Except PyError String :=
  match generateEntries files with
  | .error e => .error e
  | .ok body => .ok (headerText ++ body)

/-! ## Well-formedness

The invariant maintained by the parser and by the rewrite pass, under which
serialization round-trips. -/

def validNameStr (s : String) : Bool :=
  match s.data with
  | [] => false
  | c :: r => isNameStartChar c && r.all isNameChar

def keyNotIn (k : String) : AttrList → Bool
  | [] => true
  | (k0, _) :: r => !(k0 = k) && keyNotIn k r

def distinctKeys : AttrList → Bool
  | [] => true
  | (k, _) :: r => keyNotIn k r && distinctKeys r

def isTextNode : Node → Bool
  | .text _ => true
  | .element _ _ _ => false

/-- No two adjacent text nodes (adjacent character data is merged by the
parser, so serialized trees must not contain it). -/
def noAdjText : List Node → Bool
  | [] => true
  | [_] => true
  | a :: b :: r => !(isTextNode a && isTextNode b) && noAdjText (b :: r)

mutual

def wfNode : Node → Bool
  | .text s => !s.data.isEmpty
  | .element tag attrs cs =>
    validNameStr tag && attrs.all (fun kv => validNameStr kv.1) && distinctKeys attrs &&
      noAdjText cs && wfChildren cs

def wfChildren : List Node → Bool
  | [] => true
  | n :: r => wfNode n && wfChildren r

end

/-! No carriage-return character in any text node: CR in character data
serializes raw and is turned into LF by the next parse, so byte-identical
round-tripping needs its absence. -/
mutual

def noCRNode : Node → Bool
  | .text s => s.data.all (fun c => !(c = '\r'))
  | .element _ _ cs => noCRChildren cs

def noCRChildren : List Node → Bool
  | [] => true
  | n :: r => noCRNode n && noCRChildren r

end

/-! Whether some descendant (or the node itself) passes the loop's
candidate filter: an `svg`-tagged element with both `x` and `y`. -/
mutual

def hasCandidate : Node → Bool
  | .text _ => false
  | .element tag attrs cs => isCandidate tag attrs || hasCandidateIn cs

def hasCandidateIn : List Node → Bool
  | [] => false
  | n :: r => hasCandidate n || hasCandidateIn r

end

/-! ## Spec-side reference definitions

Two comparison definitions written from the specification's words (not
from the code), used to state refinement counterexamples. -/

/-- From the spec's words: "stripping a trailing pixel-unit suffix if
present" — removes one final "px" only. -/
def stripTrailingPxSpec (s : String) : String :=
  match s.data.reverse with
  | 'x' :: 'p' :: r => ⟨r.reverse⟩
  | _ => s

/-- From the spec's words: a viewBox "matching the pattern \"0 0 W H\"
where W and H are integers" — the whole value, not merely a prefix of it,
has that shape. -/
def viewBoxExactFormSpec (s : String) : Bool :=
  match s.data with
  | '0' :: ' ' :: '0' :: ' ' :: r =>
    (match spanDigits r with
     | ([], _) => false
     | (_, r1) =>
       match r1 with
       | ' ' :: r2 =>
         (match spanDigits r2 with
          | ([], _) => false
          | (_, r3) => r3 = [])
       | _ => false)
  | _ => false


/-- The constructor kind and text payload of a node: the traversal changes
only tags and attributes, so this is invariant under it. -/
def kindOf : Node → Option String
  | .text s => some s
  | .element _ _ _ => none

/-- True unless the list starts with a text node (the parser never
produces a text node directly after a text run). -/
def headNotText : List Node → Bool
  | .text _ :: _ => false
  | _ => true

/-! A fuel measure for the parser: `parseElement` needs at least
`countNode t` fuel to reconsume the serialization of `t`, and `parseNodes`
needs `countNodes l + 1` for a child list `l`. -/
mutual

def countNode : Node → Nat
  | .text _ => 1
  | .element _ _ cs => countNodes cs + 2

def countNodes : List Node → Nat
  | [] => 0
  | n :: ns => countNode n + countNodes ns

end

/-! # Theorems

## Association-list lemmas -/

theorem getAttr_setAttr_self (attrs : AttrList) (k v : String) :
    getAttr (setAttr attrs k v) k = some v := by
  induction attrs with
  | nil => simp [setAttr, getAttr]
  | cons kv r ih =>
    obtain ⟨k', v'⟩ := kv
    by_cases h : k' = k
    · subst h
      simp [setAttr, getAttr]
    · simp [setAttr, getAttr, h, ih]

theorem getAttr_setAttr_ne (attrs : AttrList) (k v k' : String) (h : k' ≠ k) :
    getAttr (setAttr attrs k v) k' = getAttr attrs k' := by
  have hne : k ≠ k' := fun hh => h hh.symm
  induction attrs with
  | nil => simp [setAttr, getAttr, hne]
  | cons kv r ih =>
    obtain ⟨k0, v0⟩ := kv
    by_cases h0 : k0 = k
    · subst h0
      simp [setAttr, getAttr, hne]
    · simp only [setAttr, if_neg h0, getAttr]
      by_cases h1 : k0 = k'
      · simp [h1]
      · simp [h1, ih]

theorem removeAttrs_cons (k0 v0 : String) (r : AttrList) (ks : List String) :
    removeAttrs ((k0, v0) :: r) ks =
      if ks.contains k0 then removeAttrs r ks else (k0, v0) :: removeAttrs r ks := rfl

theorem getAttr_removeAttrs (attrs : AttrList) (ks : List String) (k : String) :
    getAttr (removeAttrs attrs ks) k =
      if ks.contains k then none else getAttr attrs k := by
  induction attrs with
  | nil =>
    by_cases hk : ks.contains k
    · rw [if_pos hk]
      rfl
    · rw [if_neg hk]
      rfl
  | cons kv r ih =>
    obtain ⟨k0, v0⟩ := kv
    by_cases h0 : ks.contains k0
    · rw [removeAttrs_cons, if_pos h0, ih]
      by_cases hk : ks.contains k
      · rw [if_pos hk, if_pos hk]
      · have hne : k0 ≠ k := fun h => by subst h; exact hk h0
        rw [if_neg hk, if_neg hk]
        simp [getAttr, hne]
    · rw [removeAttrs_cons, if_neg h0]
      by_cases hk0 : k0 = k
      · subst hk0
        rw [if_neg h0]
        simp [getAttr]
      · simp only [getAttr, if_neg hk0, ih]

theorem keyNotIn_setAttr (attrs : AttrList) (k v k0 : String)
    (h : keyNotIn k0 attrs = true) (hne : k ≠ k0) :
    keyNotIn k0 (setAttr attrs k v) = true := by
  induction attrs with
  | nil => simp [setAttr, keyNotIn, hne]
  | cons kv r ih =>
    obtain ⟨k1, v1⟩ := kv
    simp only [keyNotIn, Bool.and_eq_true, Bool.not_eq_true'] at h
    by_cases h1 : k1 = k
    · subst h1
      simp only [setAttr, if_pos rfl, keyNotIn, Bool.and_eq_true, Bool.not_eq_true']
      exact ⟨by simpa using hne, h.2⟩
    · simp only [setAttr, if_neg h1, keyNotIn, Bool.and_eq_true, Bool.not_eq_true']
      exact ⟨h.1, ih h.2⟩

theorem distinctKeys_setAttr (attrs : AttrList) (k v : String)
    (h : distinctKeys attrs = true) : distinctKeys (setAttr attrs k v) = true := by
  induction attrs with
  | nil => simp [setAttr, distinctKeys, keyNotIn]
  | cons kv r ih =>
    obtain ⟨k0, v0⟩ := kv
    simp only [distinctKeys, Bool.and_eq_true] at h
    by_cases h0 : k0 = k
    · subst h0
      simp only [setAttr, if_pos rfl, distinctKeys, Bool.and_eq_true]
      exact h
    · simp only [setAttr, if_neg h0, distinctKeys, Bool.and_eq_true]
      refine ⟨keyNotIn_setAttr r k v k0 h.1 (fun hh => h0 hh.symm), ih h.2⟩

theorem keyNotIn_removeAttrs (attrs : AttrList) (ks : List String) (k0 : String)
    (h : keyNotIn k0 attrs = true) :
    keyNotIn k0 (removeAttrs attrs ks) = true := by
  induction attrs with
  | nil => simp [removeAttrs, keyNotIn]
  | cons kv r ih =>
    obtain ⟨k1, v1⟩ := kv
    simp only [keyNotIn, Bool.and_eq_true] at h
    by_cases h1 : ks.contains k1
    · rw [removeAttrs_cons, if_pos h1]
      exact ih h.2
    · rw [removeAttrs_cons, if_neg h1]
      simp only [keyNotIn, Bool.and_eq_true]
      exact ⟨h.1, ih h.2⟩

theorem distinctKeys_removeAttrs (attrs : AttrList) (ks : List String)
    (h : distinctKeys attrs = true) : distinctKeys (removeAttrs attrs ks) = true := by
  induction attrs with
  | nil => simp [removeAttrs, distinctKeys]
  | cons kv r ih =>
    obtain ⟨k0, v0⟩ := kv
    simp only [distinctKeys, Bool.and_eq_true] at h
    by_cases h0 : ks.contains k0
    · rw [removeAttrs_cons, if_pos h0]
      exact ih h.2
    · rw [removeAttrs_cons, if_neg h0]
      simp only [distinctKeys, Bool.and_eq_true]
      exact ⟨keyNotIn_removeAttrs r ks k0 h.1, ih h.2⟩

/-! ## Shape lemmas for the traversal -/

theorem processNode_not_candidate (tag : String) (attrs : AttrList) (cs : List Node)
    (hc : isCandidate tag attrs = false) :
    processNode (.element tag attrs cs) = (processChildren cs).map (Node.element tag attrs) := by
  simp only [processNode, hc, Bool.false_eq_true, if_false]
  cases hpc : processChildren cs <;> simp [Except.map]

theorem processNode_candidate_skip (tag : String) (attrs : AttrList) (cs : List Node)
    (hc : isCandidate tag attrs = true) (hr : rewriteSvgElem attrs = .ok none) :
    processNode (.element tag attrs cs) = (processChildren cs).map (Node.element tag attrs) := by
  simp only [processNode, hc, if_true, hr]
  cases hpc : processChildren cs <;> simp [Except.map]

theorem processNode_candidate_rewrite (tag : String) (attrs A : AttrList) (cs : List Node)
    (hc : isCandidate tag attrs = true) (hr : rewriteSvgElem attrs = .ok (some A)) :
    processNode (.element tag attrs cs) = (processChildren cs).map (Node.element "g" A) := by
  simp only [processNode, hc, if_true, hr]
  cases hpc : processChildren cs <;> simp [Except.map]

theorem processNode_candidate_error (tag : String) (attrs : AttrList) (cs : List Node)
    (e : PyError) (hc : isCandidate tag attrs = true) (hr : rewriteSvgElem attrs = .error e) :
    processNode (.element tag attrs cs) = .error e := by
  simp only [processNode, hc, if_true, hr]

theorem rewriteSvgElem_ok_some (attrs A : AttrList)
    (h : rewriteSvgElem attrs = .ok (some A)) :
    ∃ tv, A = removeAttrs (setAttr attrs "transform" tv) removedAttrNames := by
  unfold rewriteSvgElem at h
  split at h
  next => simp at h
  next x hx =>
    split at h
    next => simp at h
    next y hy =>
      dsimp only at h
      split at h
      · split at h
        next => simp at h
        next vbw vbh hm =>
          split at h
          next => simp at h
          next wn hwn =>
            split at h
            next => simp at h
            next hn hhn =>
              split at h
              next => simp at h
              next hvbw =>
                split at h
                next => simp at h
                next hvbh =>
                  simp only [Except.ok.injEq, Option.some.injEq] at h
                  exact ⟨_, h.symm⟩
      · simp at h

/-! ## Backtick escaping -/

theorem escapeBackticksChars_backtick (l : List Char) :
    ∀ i, (escapeBackticksChars l).get? i = some (Char.ofNat 96) →
      ∃ j, i = j + 1 ∧ (escapeBackticksChars l).get? j = some '\\' := by
  induction l with
  | nil => intro i h; simp [escapeBackticksChars] at h
  | cons c r ih =>
    intro i h
    by_cases hc : c = Char.ofNat 96
    · subst hc
      rw [show escapeBackticksChars (Char.ofNat 96 :: r) =
          '\\' :: Char.ofNat 96 :: escapeBackticksChars r from rfl] at h
      rcases i with _ | _ | j
      · rw [List.get?_cons_zero] at h
        have hch : ('\\' : Char) = Char.ofNat 96 := Option.some.inj h
        exact absurd hch (by decide)
      · exact ⟨0, rfl, rfl⟩
      · rw [List.get?_cons_succ, List.get?_cons_succ] at h
        obtain ⟨j0, hj0, hg⟩ := ih j h
        refine ⟨j0 + 2, by omega, ?_⟩
        rw [show escapeBackticksChars (Char.ofNat 96 :: r) =
            '\\' :: Char.ofNat 96 :: escapeBackticksChars r from rfl]
        rw [List.get?_cons_succ, List.get?_cons_succ]
        exact hg
    · have he : escapeBackticksChars (c :: r) = c :: escapeBackticksChars r := by
        simp [escapeBackticksChars, escBacktickChar, hc]
      rw [he] at h
      rcases i with _ | j
      · rw [List.get?_cons_zero] at h
        exact absurd (Option.some.inj h) hc
      · rw [List.get?_cons_succ] at h
        obtain ⟨j0, hj0, hg⟩ := ih j h
        refine ⟨j0 + 1, by omega, ?_⟩
        rw [he, List.get?_cons_succ]
        exact hg

/-! ## Claim theorems (first batch) -/

/-- C8: every backtick character of the (escaped) SVG content embedded in
the generated output is immediately preceded by a backslash. -/
theorem backtick_always_escaped (s : String) (i : Nat)
    (h : (escapeBackticks s).data.get? i = some (Char.ofNat 96)) :
    ∃ j, i = j + 1 ∧ (escapeBackticks s).data.get? j = some '\\' := by
  have he : (escapeBackticks s).data = escapeBackticksChars s.data := rfl
  rw [he] at h ⊢
  exact escapeBackticksChars_backtick s.data i h

theorem backtick_always_escaped_witness :
    (escapeBackticks "a`").data.get? 2 = some (Char.ofNat 96) ∧
      ∃ j, 2 = j + 1 ∧ (escapeBackticks "a`").data.get? j = some '\\' :=
  ⟨by decide, backtick_always_escaped "a`" 2 (by decide)⟩

/-- C5: for every input string that fails XML parsing, the normalizer
returns exactly the original input string, unmodified. -/
theorem parse_failure_returns_original (s : String) (h : parseXml s = none) :
    processSvgContent s = .ok s := by
  unfold processSvgContent
  rw [h]

theorem parse_failure_returns_original_witness :
    parseXml "QR code plain text" = none ∧
      processSvgContent "QR code plain text" = .ok "QR code plain text" :=
  ⟨rfl, parse_failure_returns_original "QR code plain text" rfl⟩

/-- C9: the scale division is unguarded against a zero divisor: a nested
svg element with numeric x, y, width, height and viewBox "0 0 0 5" (zero
viewBox width) makes the normalizer raise an uncaught ZeroDivisionError,
since the surrounding handler catches only ValueError. -/
theorem zero_viewbox_division_unguarded :
    processSvgContent
        "<svg><svg x=\"0\" y=\"0\" width=\"5\" height=\"5\" viewBox=\"0 0 0 5\" /></svg>"
      = .error .zeroDivisionError := by decide

/-- Counterexample for C1: a candidate nested svg whose `x` attribute is
non-numeric makes the whole normalizer raise an uncaught ValueError — the
`float(x)` call sits outside the `try/except ValueError`, so this numeric
parse failure is not isolated to the element. -/
theorem nonnumeric_x_raises_valueerror :
    processSvgContent "<svg><svg x=\"abc\" y=\"0\" /></svg>" = .error .valueError := by decide

/-- Counterexample for C6: idempotence fails byte-for-byte.  A carriage
return entering character data through the reference `&#13;` serializes as
a raw CR, which the next parse turns into LF (XML line-ending
normalization), so the second pass changes the output. -/
theorem idempotence_fails_on_carriage_return :
    processSvgContent "<svg>&#13;</svg>" = .ok "<svg>\r</svg>" ∧
      processSvgContent "<svg>\r</svg>" = .ok "<svg>\n</svg>" ∧
      ("<svg>\r</svg>" : String) ≠ "<svg>\n</svg>" :=
  ⟨by decide, by decide, by decide⟩

/-- Counterexample for C3: `re.match` only anchors at the start, so the
viewBox "0 0 2 1 junk" — not of the claimed form "0 0 W H" — is accepted
and the element is rewritten rather than skipped. -/
theorem viewbox_trailing_junk_still_rewrites :
    viewBoxExactFormSpec "0 0 2 1 junk" = false ∧
      rewriteSvgElem [("x","0"),("y","0"),("width","2"),("height","1"),("viewBox","0 0 2 1 junk")]
        = .ok (some [("transform","translate(0.0,0.0) scale(1.000,1.000)")]) :=
  ⟨by decide, by decide⟩

/-- Counterexample for C4: `replace('px','')` removes every occurrence of
"px", not only a trailing unit: width "1px0" is read as "10" and the
element is rewritten, while under trailing-only stripping the value would
stay "1px0" and the element would be skipped. -/
theorem px_removed_everywhere_not_only_trailing :
    pyReplacePx "1px0" = "10" ∧ stripTrailingPxSpec "1px0" = "1px0" ∧
      rewriteSvgElem [("x","0"),("y","0"),("width","1px0"),("height","10"),("viewBox","0 0 10 10")]
        = .ok (some [("transform","translate(0.0,0.0) scale(1.000,1.000)")]) :=
  ⟨by decide, by decide, by decide⟩

/-- Counterexample for C7: the emitter embeds the normalizer's
re-serialization, not the original file content: "<a></a>" (valid XML, no
nested positioned svg, no backticks) is emitted as the self-closed
"<a />", which differs from the original byte-for-byte. -/
theorem emitter_value_not_verbatim :
    generateQrcodesTs [("a.svg", "<a></a>"), ("b.svg", "<b></b>")]
      = .ok (headerText ++ (exportFragment "a" "<a />" ++ (exportFragment "b" "<b />" ++ ""))) ∧
      ("<a />" : String) ≠ "<a></a>" ∧ escapeBackticks "<a></a>" = "<a></a>" :=
  ⟨by decide, by decide, by decide⟩

/-- C1 (amended): numeric parse failures of width or height (inside the
guarded block) are isolated: the element is left unmodified and processing
continues with the children and remaining candidates; by contrast a
non-numeric x or y raises an uncaught ValueError aborting the file. -/
theorem width_height_parse_failure_isolated (tag : String) (attrs : AttrList)
    (cs : List Node) (x y : Frac) (vbw vbh : Nat)
    (hc : isCandidate tag attrs = true)
    (hx : pyFloatAttr attrs "x" = some x) (hy : pyFloatAttr attrs "y" = some y)
    (hw : pyReplacePx (getAttrD attrs "width" "") ≠ "")
    (hh : pyReplacePx (getAttrD attrs "height" "") ≠ "")
    (hv : getAttrD attrs "viewBox" "" ≠ "")
    (hm : reMatchViewBox (getAttrD attrs "viewBox" "") = some (vbw, vbh))
    (hfail : pyFloat (pyReplacePx (getAttrD attrs "width" "")) = none ∨
             pyFloat (pyReplacePx (getAttrD attrs "height" "")) = none) :
    rewriteSvgElem attrs = .ok none ∧
      processNode (.element tag attrs cs) = (processChildren cs).map (Node.element tag attrs) := by
  have h1 : rewriteSvgElem attrs = .ok none := by
    unfold rewriteSvgElem
    rw [hx]
    dsimp only
    rw [hy]
    dsimp only
    rw [if_pos ⟨hw, hh, hv⟩, hm]
    rcases hfail with hf | hf
    · rw [hf]
    · cases hwv : pyFloat (pyReplacePx (getAttrD attrs "width" "")) with
      | none => rfl
      | some w =>
        dsimp only
        rw [hf]
  exact ⟨h1, processNode_candidate_skip tag attrs cs hc h1⟩

theorem width_height_parse_failure_isolated_witness :
    rewriteSvgElem [("x","1"),("y","2"),("width","w9"),("height","3"),("viewBox","0 0 4 4")]
        = .ok none ∧
      processNode (.element "svg"
          [("x","1"),("y","2"),("width","w9"),("height","3"),("viewBox","0 0 4 4")] [])
        = (processChildren []).map
            (Node.element "svg" [("x","1"),("y","2"),("width","w9"),("height","3"),("viewBox","0 0 4 4")]) :=
  width_height_parse_failure_isolated "svg"
    [("x","1"),("y","2"),("width","w9"),("height","3"),("viewBox","0 0 4 4")] []
    ⟨1, 1⟩ ⟨2, 1⟩ 4 4 (by decide) (by decide) (by decide) (by decide) (by decide)
    (by decide) (by decide) (Or.inl (by decide))

/-- C3 (amended): the code requires only a PREFIX match of the viewBox
against "0 0 W H" (trailing characters after the second integer are
accepted); whenever the prefix match fails — in particular for any
non-zero-origin viewBox — the element is left unchanged and processing
continues. -/
theorem viewbox_prefix_mismatch_skips (tag : String) (attrs : AttrList)
    (cs : List Node) (x y : Frac)
    (hc : isCandidate tag attrs = true)
    (hx : pyFloatAttr attrs "x" = some x) (hy : pyFloatAttr attrs "y" = some y)
    (hw : pyReplacePx (getAttrD attrs "width" "") ≠ "")
    (hh : pyReplacePx (getAttrD attrs "height" "") ≠ "")
    (hv : getAttrD attrs "viewBox" "" ≠ "")
    (hm : reMatchViewBox (getAttrD attrs "viewBox" "") = none) :
    rewriteSvgElem attrs = .ok none ∧
      processNode (.element tag attrs cs) = (processChildren cs).map (Node.element tag attrs) := by
  have h1 : rewriteSvgElem attrs = .ok none := by
    unfold rewriteSvgElem
    rw [hx]
    dsimp only
    rw [hy]
    dsimp only
    rw [if_pos ⟨hw, hh, hv⟩, hm]
  exact ⟨h1, processNode_candidate_skip tag attrs cs hc h1⟩

theorem viewbox_prefix_mismatch_skips_witness :
    rewriteSvgElem [("x","1"),("y","2"),("width","4"),("height","4"),("viewBox","1 0 4 4")]
        = .ok none ∧
      processNode (.element "svg"
          [("x","1"),("y","2"),("width","4"),("height","4"),("viewBox","1 0 4 4")] [])
        = (processChildren []).map
            (Node.element "svg" [("x","1"),("y","2"),("width","4"),("height","4"),("viewBox","1 0 4 4")]) :=
  viewbox_prefix_mismatch_skips "svg"
    [("x","1"),("y","2"),("width","4"),("height","4"),("viewBox","1 0 4 4")] []
    ⟨1, 1⟩ ⟨2, 1⟩ (by decide) (by decide) (by decide) (by decide) (by decide)
    (by decide) (by decide)

/-- C4 (amended): width and height are read with every occurrence of "px"
removed (str.replace removes all, not only a trailing suffix — see the
counterexample); when either value is empty after removal, or the
attribute is absent (read as ""), the element's tag and attributes are
left entirely unchanged and processing continues. -/
theorem empty_width_height_skips (tag : String) (attrs : AttrList)
    (cs : List Node) (x y : Frac)
    (hc : isCandidate tag attrs = true)
    (hx : pyFloatAttr attrs "x" = some x) (hy : pyFloatAttr attrs "y" = some y)
    (hempty : pyReplacePx (getAttrD attrs "width" "") = "" ∨
              pyReplacePx (getAttrD attrs "height" "") = "") :
    rewriteSvgElem attrs = .ok none ∧
      processNode (.element tag attrs cs) = (processChildren cs).map (Node.element tag attrs) := by
  have h1 : rewriteSvgElem attrs = .ok none := by
    unfold rewriteSvgElem
    rw [hx]
    dsimp only
    rw [hy]
    dsimp only
    have hneg : ¬ (pyReplacePx (getAttrD attrs "width" "") ≠ "" ∧
        pyReplacePx (getAttrD attrs "height" "") ≠ "" ∧ getAttrD attrs "viewBox" "" ≠ "") := by
      intro hcond
      rcases hempty with hf | hf
      · exact hcond.1 hf
      · exact hcond.2.1 hf
    rw [if_neg hneg]
  exact ⟨h1, processNode_candidate_skip tag attrs cs hc h1⟩

theorem empty_width_height_skips_witness :
    rewriteSvgElem [("x","1"),("y","2"),("width","px"),("height","3")] = .ok none ∧
      processNode (.element "svg" [("x","1"),("y","2"),("width","px"),("height","3")] [])
        = (processChildren []).map
            (Node.element "svg" [("x","1"),("y","2"),("width","px"),("height","3")]) :=
  empty_width_height_skips "svg" [("x","1"),("y","2"),("width","px"),("height","3")] []
    ⟨1, 1⟩ ⟨2, 1⟩ (by decide) (by decide) (by decide) (Or.inl (by decide))

/-- C2: a nested svg element carrying x="10", y="20", width="100",
height="50", viewBox="0 0 200 100" — whatever its other attributes and
children — is rewritten to tag `g`, its transform is set to exactly
"translate(10.0,20.0) scale(0.500,0.500)", and the attributes x, y, width,
height, viewBox, fill and overflow are all absent afterwards. -/
theorem positioned_nested_svg_rewritten (attrs : AttrList) (cs : List Node)
    (hx : getAttr attrs "x" = some "10") (hy : getAttr attrs "y" = some "20")
    (hw : getAttr attrs "width" = some "100") (hh : getAttr attrs "height" = some "50")
    (hv : getAttr attrs "viewBox" = some "0 0 200 100") :
    ∃ A, rewriteSvgElem attrs = .ok (some A) ∧
      processNode (.element "svg" attrs cs) = (processChildren cs).map (Node.element "g" A) ∧
      getAttr A "transform" = some "translate(10.0,20.0) scale(0.500,0.500)" ∧
      getAttr A "x" = none ∧ getAttr A "y" = none ∧ getAttr A "width" = none ∧
      getAttr A "height" = none ∧ getAttr A "viewBox" = none ∧
      getAttr A "fill" = none ∧ getAttr A "overflow" = none := by
  have hcand : isCandidate "svg" attrs = true := by
    simp [isCandidate, hx, hy]
  have exf : pyFloatAttr attrs "x" = some ⟨10, 1⟩ := by
    unfold pyFloatAttr
    rw [hx]
    decide
  have eyf : pyFloatAttr attrs "y" = some ⟨20, 1⟩ := by
    unfold pyFloatAttr
    rw [hy]
    decide
  have egw : getAttrD attrs "width" "" = "100" := by
    unfold getAttrD
    rw [hw]
    rfl
  have egh : getAttrD attrs "height" "" = "50" := by
    unfold getAttrD
    rw [hh]
    rfl
  have egv : getAttrD attrs "viewBox" "" = "0 0 200 100" := by
    unfold getAttrD
    rw [hv]
    rfl
  have h1 : rewriteSvgElem attrs = .ok (some (removeAttrs
      (setAttr attrs "transform" "translate(10.0,20.0) scale(0.500,0.500)") removedAttrNames)) := by
    unfold rewriteSvgElem
    rw [exf]
    dsimp only
    rw [eyf]
    dsimp only
    rw [egw, egh, egv]
    rw [if_pos (by decide)]
    rw [show reMatchViewBox "0 0 200 100" = some (200, 100) from by decide]
    dsimp only
    rw [show pyFloat (pyReplacePx "100") = some ⟨100, 1⟩ from by decide]
    dsimp only
    rw [show pyFloat (pyReplacePx "50") = some ⟨50, 1⟩ from by decide]
    dsimp only
    rw [if_neg (by decide), if_neg (by decide)]
    rw [show transformAttrValue ⟨10, 1⟩ ⟨20, 1⟩ (Frac.div ⟨100, 1⟩ (Frac.ofNat 200))
        (Frac.div ⟨50, 1⟩ (Frac.ofNat 100)) = "translate(10.0,20.0) scale(0.500,0.500)" from by decide]
  refine ⟨_, h1, processNode_candidate_rewrite "svg" attrs _ cs hcand h1, ?_, ?_, ?_, ?_, ?_, ?_, ?_, ?_⟩
  · rw [getAttr_removeAttrs, if_neg (by decide), getAttr_setAttr_self]
  · rw [getAttr_removeAttrs, if_pos (by decide)]
  · rw [getAttr_removeAttrs, if_pos (by decide)]
  · rw [getAttr_removeAttrs, if_pos (by decide)]
  · rw [getAttr_removeAttrs, if_pos (by decide)]
  · rw [getAttr_removeAttrs, if_pos (by decide)]
  · rw [getAttr_removeAttrs, if_pos (by decide)]
  · rw [getAttr_removeAttrs, if_pos (by decide)]

theorem positioned_nested_svg_rewritten_witness :
    ∃ A, rewriteSvgElem
        [("x","10"),("y","20"),("width","100"),("height","50"),("viewBox","0 0 200 100"),("fill","red")]
        = .ok (some A) ∧
      processNode (.element "svg"
          [("x","10"),("y","20"),("width","100"),("height","50"),("viewBox","0 0 200 100"),("fill","red")] [])
        = (processChildren []).map (Node.element "g" A) ∧
      getAttr A "transform" = some "translate(10.0,20.0) scale(0.500,0.500)" ∧
      getAttr A "x" = none ∧ getAttr A "y" = none ∧ getAttr A "width" = none ∧
      getAttr A "height" = none ∧ getAttr A "viewBox" = none ∧
      getAttr A "fill" = none ∧ getAttr A "overflow" = none :=
  positioned_nested_svg_rewritten
    [("x","10"),("y","20"),("width","100"),("height","50"),("viewBox","0 0 200 100"),("fill","red")]
    [] rfl rfl rfl rfl rfl

/-- C7 (amended): for a directory listing exactly a.svg and b.svg, each of
which the normalizer parses and transforms without error, the emitter
produces exactly the fixed header followed by the two export statements
QRCode_a and QRCode_b, whose values are the normalized (re-serialized)
contents with backticks escaped — not the original file bytes. -/
theorem emitter_two_files (ca cb ca' cb' : String)
    (h1 : processSvgContent ca = .ok ca') (h2 : processSvgContent cb = .ok cb') :
    generateQrcodesTs [("a.svg", ca), ("b.svg", cb)]
      = .ok (headerText ++ (exportFragment "a" (escapeBackticks ca') ++
          (exportFragment "b" (escapeBackticks cb') ++ ""))) := by
  simp only [generateQrcodesTs, generateEntries, h1, h2,
    show endsWithDotSvg "a.svg" = true from by decide,
    show endsWithDotSvg "b.svg" = true from by decide,
    show dropLast4 "a.svg" = "a" from by decide,
    show dropLast4 "b.svg" = "b" from by decide, if_true]

theorem emitter_two_files_witness :
    generateQrcodesTs [("a.svg", "<svg></svg>"), ("b.svg", "<b>x</b>")]
      = .ok (headerText ++ (exportFragment "a" (escapeBackticks "<svg />") ++
          (exportFragment "b" (escapeBackticks "<b>x</b>") ++ ""))) :=
  emitter_two_files "<svg></svg>" "<b>x</b>" "<svg />" "<b>x</b>" (by decide) (by decide)

/-- C10: when a candidate nested svg element is rewritten, only its tag,
its new transform attribute and the seven removed attribute names change:
every other attribute keeps its value, the children are handed to their
own independent processing untouched by this element's rewrite, and any
element that is not a rewrite candidate keeps its tag and attributes. -/
theorem rewrite_frame_effect (tag : String) (attrs A : AttrList) (cs : List Node)
    (hc : isCandidate tag attrs = true)
    (hr : rewriteSvgElem attrs = .ok (some A)) :
    (∀ k, k ∉ removedAttrNames → k ≠ "transform" → getAttr A k = getAttr attrs k) ∧
    (∀ k, k ∈ removedAttrNames → getAttr A k = none) ∧
    (∃ tv, getAttr A "transform" = some tv) ∧
    processNode (.element tag attrs cs) = (processChildren cs).map (Node.element "g" A) ∧
    (∀ tag2 attrs2 cs2, isCandidate tag2 attrs2 = false →
      processNode (.element tag2 attrs2 cs2)
        = (processChildren cs2).map (Node.element tag2 attrs2)) := by
  obtain ⟨tv, hA⟩ := rewriteSvgElem_ok_some attrs A hr
  subst hA
  refine ⟨?_, ?_, ?_, processNode_candidate_rewrite tag attrs _ cs hc hr, ?_⟩
  · intro k hk hkt
    rw [getAttr_removeAttrs, if_neg (by simpa using hk), getAttr_setAttr_ne _ _ _ _ hkt]
  · intro k hk
    rw [getAttr_removeAttrs, if_pos (by simpa using hk)]
  · exact ⟨tv, by rw [getAttr_removeAttrs, if_neg (by decide), getAttr_setAttr_self]⟩
  · exact fun tag2 attrs2 cs2 h => processNode_not_candidate tag2 attrs2 cs2 h

theorem rewrite_frame_effect_witness :
    (∀ k, k ∉ removedAttrNames → k ≠ "transform" →
      getAttr [("id","q"),("transform","translate(1.0,2.0) scale(1.000,1.000)")] k
        = getAttr [("x","1"),("y","2"),("width","4"),("height","4"),("viewBox","0 0 4 4"),("id","q")] k) ∧
    (∀ k, k ∈ removedAttrNames →
      getAttr [("id","q"),("transform","translate(1.0,2.0) scale(1.000,1.000)")] k = none) ∧
    (∃ tv, getAttr [("id","q"),("transform","translate(1.0,2.0) scale(1.000,1.000)")] "transform"
      = some tv) ∧
    processNode (.element "svg"
        [("x","1"),("y","2"),("width","4"),("height","4"),("viewBox","0 0 4 4"),("id","q")] [])
      = (processChildren []).map
          (Node.element "g" [("id","q"),("transform","translate(1.0,2.0) scale(1.000,1.000)")]) ∧
    (∀ tag2 attrs2 cs2, isCandidate tag2 attrs2 = false →
      processNode (.element tag2 attrs2 cs2)
        = (processChildren cs2).map (Node.element tag2 attrs2)) :=
  rewrite_frame_effect "svg"
    [("x","1"),("y","2"),("width","4"),("height","4"),("viewBox","0 0 4 4"),("id","q")]
    [("id","q"),("transform","translate(1.0,2.0) scale(1.000,1.000)")] []
    (by decide) (by decide)

/-! ## Mutual induction over trees -/

theorem nodeInd (P : Node → Prop) (Q : List Node → Prop)
    (htx : ∀ s, P (.text s))
    (hel : ∀ tag attrs cs, Q cs → P (.element tag attrs cs))
    (hnil : Q [])
    (hcons : ∀ n l, P n → Q l → Q (n :: l)) :
    (∀ n, P n) ∧ (∀ l, Q l) := by
  have key : ∀ k : Nat,
      (∀ n : Node, sizeOf n ≤ k → P n) ∧ (∀ l : List Node, sizeOf l ≤ k → Q l) := by
    intro k
    induction k using Nat.strong_induction_on with
    | _ k ih =>
      constructor
      · intro n hn
        match n, hn with
        | .text s, _ => exact htx s
        | .element tag attrs cs, hn =>
          apply hel
          have hlt : sizeOf cs < k := by
            have hs : sizeOf cs < sizeOf (Node.element tag attrs cs) := by
              simp only [Node.element.sizeOf_spec]
              omega
            omega
          exact (ih (sizeOf cs) hlt).2 cs le_rfl
      · intro l hl
        match l, hl with
        | [], _ => exact hnil
        | n :: ns, hl =>
          have h1 : sizeOf n < k := by
            have hs : sizeOf n < sizeOf (n :: ns) := by
              simp only [List.cons.sizeOf_spec]
              omega
            omega
          have h2 : sizeOf ns < k := by
            have hs : sizeOf ns < sizeOf (n :: ns) := by
              simp only [List.cons.sizeOf_spec]
              omega
            omega
          exact hcons n ns ((ih (sizeOf n) h1).1 n le_rfl) ((ih (sizeOf ns) h2).2 ns le_rfl)
  exact ⟨fun n => (key (sizeOf n)).1 n le_rfl, fun l => (key (sizeOf l)).2 l le_rfl⟩

/-! ## The transform pass is idempotent on trees

Rewritten elements carry the `g` tag and no longer pass the candidate
filter; skipped elements are skipped again for the same (deterministic)
reason. -/

theorem processNode_idem :
    (∀ n, ∀ n2, processNode n = .ok n2 → processNode n2 = .ok n2) ∧
    (∀ l, ∀ l2, processChildren l = .ok l2 → processChildren l2 = .ok l2) := by
  apply nodeInd
  · intro s n2 h
    rw [show processNode (.text s) = .ok (.text s) from rfl] at h
    cases h
    rfl
  · intro tag attrs cs hQ n2 h
    by_cases hc : isCandidate tag attrs = true
    · cases hr : rewriteSvgElem attrs with
      | error e =>
        rw [processNode_candidate_error tag attrs cs e hc hr] at h
        cases h
      | ok res =>
        cases res with
        | none =>
          rw [processNode_candidate_skip tag attrs cs hc hr] at h
          cases hpc : processChildren cs with
          | error e => rw [hpc] at h; cases h
          | ok cs2 =>
            rw [hpc] at h
            simp only [Except.map] at h
            cases h
            rw [processNode_candidate_skip tag attrs cs2 hc hr, hQ cs2 hpc]
            rfl
        | some A =>
          rw [processNode_candidate_rewrite tag attrs A cs hc hr] at h
          cases hpc : processChildren cs with
          | error e => rw [hpc] at h; cases h
          | ok cs2 =>
            rw [hpc] at h
            simp only [Except.map] at h
            cases h
            have hg : isCandidate "g" A = false := by simp [isCandidate]
            rw [processNode_not_candidate "g" A cs2 hg, hQ cs2 hpc]
            rfl
    · have hcf : isCandidate tag attrs = false := by simpa using hc
      rw [processNode_not_candidate tag attrs cs hcf] at h
      cases hpc : processChildren cs with
      | error e => rw [hpc] at h; cases h
      | ok cs2 =>
        rw [hpc] at h
        simp only [Except.map] at h
        cases h
        rw [processNode_not_candidate tag attrs cs2 hcf, hQ cs2 hpc]
        rfl
  · intro l2 h
    rw [show processChildren ([] : List Node) = .ok [] from rfl] at h
    cases h
    rfl
  · intro n l hP hQ l2 h
    simp only [processChildren] at h
    cases hn : processNode n with
    | error e =>
      rw [hn] at h
      cases h
    | ok n1 =>
      rw [hn] at h
      dsimp only at h
      cases hl : processChildren l with
      | error e =>
        rw [hl] at h
        cases h
      | ok l1 =>
        rw [hl] at h
        dsimp only at h
        cases h
        simp only [processChildren]
        rw [hP n1 hn]
        dsimp only
        rw [hQ l1 hl]

/-! ## The pass preserves node kinds and well-formedness -/

theorem processNode_kind :
    (∀ n, ∀ n2, processNode n = .ok n2 → kindOf n2 = kindOf n) ∧
    (∀ l, ∀ l2, processChildren l = .ok l2 → l2.map kindOf = l.map kindOf) := by
  apply nodeInd
  · intro s n2 h
    rw [show processNode (.text s) = .ok (.text s) from rfl] at h
    cases h
    rfl
  · intro tag attrs cs hQ n2 h
    by_cases hc : isCandidate tag attrs = true
    · cases hr : rewriteSvgElem attrs with
      | error e =>
        rw [processNode_candidate_error tag attrs cs e hc hr] at h
        cases h
      | ok res =>
        cases res with
        | none =>
          rw [processNode_candidate_skip tag attrs cs hc hr] at h
          cases hpc : processChildren cs with
          | error e => rw [hpc] at h; cases h
          | ok cs2 =>
            rw [hpc] at h
            simp only [Except.map] at h
            cases h
            rfl
        | some A =>
          rw [processNode_candidate_rewrite tag attrs A cs hc hr] at h
          cases hpc : processChildren cs with
          | error e => rw [hpc] at h; cases h
          | ok cs2 =>
            rw [hpc] at h
            simp only [Except.map] at h
            cases h
            rfl
    · have hcf : isCandidate tag attrs = false := by simpa using hc
      rw [processNode_not_candidate tag attrs cs hcf] at h
      cases hpc : processChildren cs with
      | error e => rw [hpc] at h; cases h
      | ok cs2 =>
        rw [hpc] at h
        simp only [Except.map] at h
        cases h
        rfl
  · intro l2 h
    rw [show processChildren ([] : List Node) = .ok [] from rfl] at h
    cases h
    rfl
  · intro n l hP hQ l2 h
    simp only [processChildren] at h
    cases hn : processNode n with
    | error e => rw [hn] at h; cases h
    | ok n1 =>
      rw [hn] at h
      dsimp only at h
      cases hl : processChildren l with
      | error e => rw [hl] at h; cases h
      | ok l1 =>
        rw [hl] at h
        dsimp only at h
        cases h
        simp only [List.map_cons]
        rw [hP n1 hn, hQ l1 hl]

theorem isTextNode_of_kindOf (a b : Node) (h : kindOf a = kindOf b) :
    isTextNode a = isTextNode b := by
  cases a <;> cases b <;> simp_all [kindOf, isTextNode]

theorem noAdjText_of_map_kind : ∀ l m : List Node,
    l.map kindOf = m.map kindOf → noAdjText l = noAdjText m := by
  intro l
  induction l with
  | nil =>
    intro m h
    cases m with
    | nil => rfl
    | cons b m2 => simp at h
  | cons a l2 ih =>
    intro m h
    cases m with
    | nil => simp at h
    | cons b m2 =>
      simp only [List.map_cons, List.cons.injEq] at h
      obtain ⟨hab, hlm⟩ := h
      cases l2 with
      | nil =>
        cases m2 with
        | nil => rfl
        | cons c m3 => simp at hlm
      | cons a2 l3 =>
        cases m2 with
        | nil => simp at hlm
        | cons b2 m3 =>
          have hlm2 := hlm
          simp only [List.map_cons, List.cons.injEq] at hlm2
          rw [show noAdjText (a :: a2 :: l3)
              = (!(isTextNode a && isTextNode a2) && noAdjText (a2 :: l3)) from rfl]
          rw [show noAdjText (b :: b2 :: m3)
              = (!(isTextNode b && isTextNode b2) && noAdjText (b2 :: m3)) from rfl]
          rw [isTextNode_of_kindOf a b hab, isTextNode_of_kindOf a2 b2 hlm2.1]
          rw [ih (b2 :: m3) hlm]

theorem setAttr_cons (k0 v0 k v : String) (r : AttrList) :
    setAttr ((k0, v0) :: r) k v
      = if k0 = k then (k, v) :: r else (k0, v0) :: setAttr r k v := rfl

theorem allKeys_setAttr (attrs : AttrList) (k v : String) (p : String → Bool)
    (h : attrs.all (fun kv => p kv.1) = true) (hk : p k = true) :
    (setAttr attrs k v).all (fun kv => p kv.1) = true := by
  induction attrs with
  | nil => simp [setAttr, hk]
  | cons kv0 r ih =>
    obtain ⟨k0, v0⟩ := kv0
    simp only [List.all_cons, Bool.and_eq_true] at h
    by_cases h0 : k0 = k
    · subst h0
      rw [setAttr_cons, if_pos rfl]
      simp only [List.all_cons, Bool.and_eq_true]
      exact ⟨hk, h.2⟩
    · rw [setAttr_cons, if_neg h0]
      simp only [List.all_cons, Bool.and_eq_true]
      exact ⟨h.1, ih h.2⟩

theorem allKeys_removeAttrs (attrs : AttrList) (ks : List String) (p : String → Bool)
    (h : attrs.all (fun kv => p kv.1) = true) :
    (removeAttrs attrs ks).all (fun kv => p kv.1) = true := by
  induction attrs with
  | nil => simp [removeAttrs]
  | cons kv0 r ih =>
    obtain ⟨k0, v0⟩ := kv0
    simp only [List.all_cons, Bool.and_eq_true] at h
    by_cases h0 : ks.contains k0
    · rw [removeAttrs_cons, if_pos h0]
      exact ih h.2
    · rw [removeAttrs_cons, if_neg h0]
      simp only [List.all_cons, Bool.and_eq_true]
      exact ⟨h.1, ih h.2⟩

theorem wf_rewritten_attrs (attrs : AttrList) (tv : String)
    (hall : attrs.all (fun kv => validNameStr kv.1) = true)
    (hdk : distinctKeys attrs = true) :
    (removeAttrs (setAttr attrs "transform" tv) removedAttrNames).all
        (fun kv => validNameStr kv.1) = true ∧
      distinctKeys (removeAttrs (setAttr attrs "transform" tv) removedAttrNames) = true := by
  constructor
  · exact allKeys_removeAttrs _ _ _ (allKeys_setAttr attrs "transform" tv _ hall (by decide))
  · exact distinctKeys_removeAttrs _ _ (distinctKeys_setAttr attrs "transform" tv hdk)

theorem processNode_wf :
    (∀ n, ∀ n2, processNode n = .ok n2 → wfNode n = true → wfNode n2 = true) ∧
    (∀ l, ∀ l2, processChildren l = .ok l2 → wfChildren l = true → wfChildren l2 = true) := by
  apply nodeInd
  · intro s n2 h hwf
    rw [show processNode (.text s) = .ok (.text s) from rfl] at h
    cases h
    exact hwf
  · intro tag attrs cs hQ n2 h hwf
    simp only [wfNode, Bool.and_eq_true] at hwf
    obtain ⟨⟨⟨⟨htag, hall⟩, hdk⟩, hadj⟩, hch⟩ := hwf
    by_cases hc : isCandidate tag attrs = true
    · cases hr : rewriteSvgElem attrs with
      | error e =>
        rw [processNode_candidate_error tag attrs cs e hc hr] at h
        cases h
      | ok res =>
        cases res with
        | none =>
          rw [processNode_candidate_skip tag attrs cs hc hr] at h
          cases hpc : processChildren cs with
          | error e => rw [hpc] at h; cases h
          | ok cs2 =>
            rw [hpc] at h
            simp only [Except.map] at h
            cases h
            simp only [wfNode, Bool.and_eq_true]
            refine ⟨⟨⟨⟨htag, hall⟩, hdk⟩, ?_⟩, hQ cs2 hpc hch⟩
            rw [noAdjText_of_map_kind cs2 cs (processNode_kind.2 cs cs2 hpc)]
            exact hadj
        | some A =>
          obtain ⟨tv, hA⟩ := rewriteSvgElem_ok_some attrs A hr
          subst hA
          rw [processNode_candidate_rewrite tag attrs _ cs hc hr] at h
          cases hpc : processChildren cs with
          | error e => rw [hpc] at h; cases h
          | ok cs2 =>
            rw [hpc] at h
            simp only [Except.map] at h
            cases h
            obtain ⟨hall2, hdk2⟩ := wf_rewritten_attrs attrs tv hall hdk
            simp only [wfNode, Bool.and_eq_true]
            refine ⟨⟨⟨⟨by decide, hall2⟩, hdk2⟩, ?_⟩, hQ cs2 hpc hch⟩
            rw [noAdjText_of_map_kind cs2 cs (processNode_kind.2 cs cs2 hpc)]
            exact hadj
    · have hcf : isCandidate tag attrs = false := by simpa using hc
      rw [processNode_not_candidate tag attrs cs hcf] at h
      cases hpc : processChildren cs with
      | error e => rw [hpc] at h; cases h
      | ok cs2 =>
        rw [hpc] at h
        simp only [Except.map] at h
        cases h
        simp only [wfNode, Bool.and_eq_true]
        refine ⟨⟨⟨⟨htag, hall⟩, hdk⟩, ?_⟩, hQ cs2 hpc hch⟩
        rw [noAdjText_of_map_kind cs2 cs (processNode_kind.2 cs cs2 hpc)]
        exact hadj
  · intro l2 h hwf
    rw [show processChildren ([] : List Node) = .ok [] from rfl] at h
    cases h
    exact hwf
  · intro n l hP hQ l2 h hwf
    simp only [wfChildren, Bool.and_eq_true] at hwf
    simp only [processChildren] at h
    cases hn : processNode n with
    | error e => rw [hn] at h; cases h
    | ok n1 =>
      rw [hn] at h
      dsimp only at h
      cases hl : processChildren l with
      | error e => rw [hl] at h; cases h
      | ok l1 =>
        rw [hl] at h
        dsimp only at h
        cases h
        simp only [wfChildren, Bool.and_eq_true]
        exact ⟨hP n1 hn hwf.1, hQ l1 hl hwf.2⟩

/-! ## Parser helper lemmas -/

theorem nameStart_not_ws (c : Char) (h : isNameStartChar c = true) : isXmlWs c = false := by
  by_contra hne
  rw [Bool.not_eq_false] at hne
  have hcs : c = ' ' ∨ c = '\n' ∨ c = '\t' ∨ c = '\r' := by
    simp only [isXmlWs, Bool.or_eq_true, decide_eq_true_eq] at hne
    tauto
  rcases hcs with rfl | rfl | rfl | rfl <;> exact absurd h (by decide)

theorem nameStart_not_slash_gt (c : Char) (h : isNameStartChar c = true) :
    (decide (c = '>') || decide (c = '/')) = false := by
  by_contra hne
  rw [Bool.not_eq_false] at hne
  have hcs : c = '>' ∨ c = '/' := by
    simp only [Bool.or_eq_true, decide_eq_true_eq] at hne
    tauto
  rcases hcs with rfl | rfl <;> exact absurd h (by decide)

theorem nameStart_ne_slash (c : Char) (h : isNameStartChar c = true) : ¬ c = '/' := by
  intro hc
  subst hc
  exact absurd h (by decide)

theorem skipWs_cons_not_ws (c : Char) (l : List Char) (h : isXmlWs c = false) :
    skipWs (c :: l) = c :: l := by
  simp [skipWs, h]

theorem skipWs_cons_ws (c : Char) (l : List Char) (h : isXmlWs c = true) :
    skipWs (c :: l) = skipWs l := by
  simp [skipWs, h]

theorem spanWhile_append (p : Char → Bool) (l rest : List Char)
    (hall : ∀ c, c ∈ l → p c = true)
    (hrest : ∀ c r2, rest = c :: r2 → p c = false) :
    spanWhile p (l ++ rest) = (l, rest) := by
  induction l with
  | nil =>
    cases rest with
    | nil => rfl
    | cons c r2 =>
      simp only [List.nil_append, spanWhile]
      rw [hrest c r2 rfl]
      simp
  | cons c l2 ih =>
    simp only [List.cons_append, spanWhile]
    rw [hall c (List.mem_cons_self c l2)]
    simp only [if_true]
    rw [show l2.append rest = l2 ++ rest from rfl]
    rw [ih (fun c2 hc2 => hall c2 (List.mem_cons_of_mem c hc2))]

theorem parseNameTok_append (tag : String) (rest : List Char)
    (hv : validNameStr tag = true)
    (hrest : ∀ c r2, rest = c :: r2 → isNameChar c = false) :
    parseNameTok (tag.data ++ rest) = some (tag, rest) := by
  cases htag : tag.data with
  | nil =>
    unfold validNameStr at hv
    rw [htag] at hv
    cases hv
  | cons c cs =>
    have hv2 := hv
    unfold validNameStr at hv2
    rw [htag] at hv2
    simp only [Bool.and_eq_true] at hv2
    simp only [List.cons_append, parseNameTok]
    rw [if_pos hv2.1]
    have hall : ∀ c2, c2 ∈ cs → isNameChar c2 = true := by
      intro c2 hc2
      have := hv2.2
      rw [List.all_eq_true] at this
      exact this c2 hc2
    rw [spanWhile_append isNameChar cs rest hall hrest]
    have : (⟨c :: cs⟩ : String) = tag := by
      rw [← htag]
    rw [this]

theorem escAttribChars_length_ge (v : List Char) : v.length ≤ (escAttribChars v).length := by
  induction v with
  | nil => simp [escAttribChars]
  | cons c r ih =>
    simp only [escAttribChars, List.length_append, List.length_cons]
    have h1 : 1 ≤ (escAttribChar c).length := by
      unfold escAttribChar
      repeat' split
      all_goals simp
    omega

theorem escTextChars_length_ge (v : List Char) : v.length ≤ (escTextChars v).length := by
  induction v with
  | nil => simp [escTextChars]
  | cons c r ih =>
    simp only [escTextChars, List.length_append, List.length_cons]
    have h1 : 1 ≤ (escTextChar c).length := by
      unfold escTextChar
      repeat' split
      all_goals simp
    omega

theorem serializeAttrs_length_ge (attrs : AttrList) :
    attrs.length ≤ (serializeAttrs attrs).length := by
  induction attrs with
  | nil => simp [serializeAttrs]
  | cons kv r ih =>
    obtain ⟨k, v⟩ := kv
    simp only [serializeAttrs, List.length_cons, List.length_append]
    omega

/-! ## Escaped attribute values and text reparse to themselves -/

theorem parseAttrValue_escAttrib (v : List Char) : ∀ f rest, v.length + 1 ≤ f →
    parseAttrValueAux '"' f (escAttribChars v ++ '"' :: rest) = some (v, rest) := by
  induction v with
  | nil =>
    intro f rest hf
    cases f with
    | zero => simp at hf
    | succ f0 =>
      rw [show escAttribChars [] ++ '"' :: rest = '"' :: rest from rfl]
      simp only [parseAttrValueAux]
      rw [if_pos trivial]
  | cons c v2 ih =>
    intro f rest hf
    cases f with
    | zero => simp at hf
    | succ f0 =>
      have hf2 : v2.length + 1 ≤ f0 := by
        simp only [List.length_cons] at hf
        omega
      by_cases h1 : c = '&'
      · subst h1
        rw [show escAttribChars ('&' :: v2) ++ '"' :: rest
            = '&' :: 'a' :: 'm' :: 'p' :: ';' :: (escAttribChars v2 ++ '"' :: rest) from by
          simp [escAttribChars, escAttribChar]]
        simp only [parseAttrValueAux]
        rw [if_neg (by decide), if_neg (by decide), if_pos trivial]
        rw [show parseRef ('&' :: 'a' :: 'm' :: 'p' :: ';' :: (escAttribChars v2 ++ '"' :: rest))
            = some ('&', escAttribChars v2 ++ '"' :: rest) from rfl]
        dsimp only
        rw [ih f0 rest hf2]
      · by_cases h2 : c = '<'
        · subst h2
          rw [show escAttribChars ('<' :: v2) ++ '"' :: rest
              = '&' :: 'l' :: 't' :: ';' :: (escAttribChars v2 ++ '"' :: rest) from by
            simp [escAttribChars, escAttribChar]]
          simp only [parseAttrValueAux]
          rw [if_neg (by decide), if_neg (by decide), if_pos trivial]
          rw [show parseRef ('&' :: 'l' :: 't' :: ';' :: (escAttribChars v2 ++ '"' :: rest))
              = some ('<', escAttribChars v2 ++ '"' :: rest) from rfl]
          dsimp only
          rw [ih f0 rest hf2]
        · by_cases h3 : c = '>'
          · subst h3
            rw [show escAttribChars ('>' :: v2) ++ '"' :: rest
                = '&' :: 'g' :: 't' :: ';' :: (escAttribChars v2 ++ '"' :: rest) from by
              simp [escAttribChars, escAttribChar]]
            simp only [parseAttrValueAux]
            rw [if_neg (by decide), if_neg (by decide), if_pos trivial]
            rw [show parseRef ('&' :: 'g' :: 't' :: ';' :: (escAttribChars v2 ++ '"' :: rest))
                = some ('>', escAttribChars v2 ++ '"' :: rest) from rfl]
            dsimp only
            rw [ih f0 rest hf2]
          · by_cases h4 : c = '"'
            · subst h4
              rw [show escAttribChars ('"' :: v2) ++ '"' :: rest
                  = '&' :: 'q' :: 'u' :: 'o' :: 't' :: ';' :: (escAttribChars v2 ++ '"' :: rest) from by
                simp [escAttribChars, escAttribChar]]
              simp only [parseAttrValueAux]
              rw [if_neg (by decide), if_neg (by decide), if_pos trivial]
              rw [show parseRef ('&' :: 'q' :: 'u' :: 'o' :: 't' :: ';' ::
                    (escAttribChars v2 ++ '"' :: rest))
                  = some ('"', escAttribChars v2 ++ '"' :: rest) from rfl]
              dsimp only
              rw [ih f0 rest hf2]
            · by_cases h5 : c = '\r'
              · subst h5
                rw [show escAttribChars ('\r' :: v2) ++ '"' :: rest
                    = '&' :: '#' :: '1' :: '3' :: ';' :: (escAttribChars v2 ++ '"' :: rest) from by
                  simp [escAttribChars, escAttribChar]]
                simp only [parseAttrValueAux]
                rw [if_neg (by decide), if_neg (by decide), if_pos trivial]
                rw [show parseRef ('&' :: '#' :: '1' :: '3' :: ';' ::
                      (escAttribChars v2 ++ '"' :: rest))
                    = some ('\r', escAttribChars v2 ++ '"' :: rest) from rfl]
                dsimp only
                rw [ih f0 rest hf2]
              · by_cases h6 : c = '\n'
                · subst h6
                  rw [show escAttribChars ('\n' :: v2) ++ '"' :: rest
                      = '&' :: '#' :: '1' :: '0' :: ';' :: (escAttribChars v2 ++ '"' :: rest) from by
                    simp [escAttribChars, escAttribChar]]
                  simp only [parseAttrValueAux]
                  rw [if_neg (by decide), if_neg (by decide), if_pos trivial]
                  rw [show parseRef ('&' :: '#' :: '1' :: '0' :: ';' ::
                        (escAttribChars v2 ++ '"' :: rest))
                      = some ('\n', escAttribChars v2 ++ '"' :: rest) from rfl]
                  dsimp only
                  rw [ih f0 rest hf2]
                · by_cases h7 : c = '\t'
                  · subst h7
                    rw [show escAttribChars ('\t' :: v2) ++ '"' :: rest
                        = '&' :: '#' :: '0' :: '9' :: ';' :: (escAttribChars v2 ++ '"' :: rest) from by
                      simp [escAttribChars, escAttribChar]]
                    simp only [parseAttrValueAux]
                    rw [if_neg (by decide), if_neg (by decide), if_pos trivial]
                    rw [show parseRef ('&' :: '#' :: '0' :: '9' :: ';' ::
                          (escAttribChars v2 ++ '"' :: rest))
                        = some ('\t', escAttribChars v2 ++ '"' :: rest) from rfl]
                    dsimp only
                    rw [ih f0 rest hf2]
                  · have hch : escAttribChar c = [c] := by
                      unfold escAttribChar
                      rw [if_neg h1, if_neg h2, if_neg h3, if_neg h4, if_neg h5, if_neg h6, if_neg h7]
                    rw [show escAttribChars (c :: v2) ++ '"' :: rest
                        = escAttribChar c ++ (escAttribChars v2 ++ '"' :: rest) from by
                      simp [escAttribChars]]
                    rw [hch]
                    rw [show [c] ++ (escAttribChars v2 ++ '"' :: rest)
                        = c :: (escAttribChars v2 ++ '"' :: rest) from rfl]
                    simp only [parseAttrValueAux]
                    rw [if_neg h4, if_neg h2, if_neg h1, if_neg h5,
                      if_neg (by simp [h6, h7])]
                    rw [ih f0 rest hf2]

theorem parseText_escText (v : List Char) : ∀ f rest, v.length + 1 ≤ f →
    (∀ c, c ∈ v → ¬ c = '\r') →
    parseTextAux f (escTextChars v ++ '<' :: rest) = some (v, '<' :: rest) := by
  induction v with
  | nil =>
    intro f rest hf _
    cases f with
    | zero => simp at hf
    | succ f0 =>
      rw [show escTextChars [] ++ '<' :: rest = '<' :: rest from rfl]
      simp only [parseTextAux]
      rw [if_pos trivial]
  | cons c v2 ih =>
    intro f rest hf hcr
    cases f with
    | zero => simp at hf
    | succ f0 =>
      have hf2 : v2.length + 1 ≤ f0 := by
        simp only [List.length_cons] at hf
        omega
      have hcr2 : ∀ c2, c2 ∈ v2 → ¬ c2 = '\r' :=
        fun c2 hc2 => hcr c2 (List.mem_cons_of_mem c hc2)
      by_cases h1 : c = '&'
      · subst h1
        rw [show escTextChars ('&' :: v2) ++ '<' :: rest
            = '&' :: 'a' :: 'm' :: 'p' :: ';' :: (escTextChars v2 ++ '<' :: rest) from by
          simp [escTextChars, escTextChar]]
        simp only [parseTextAux]
        rw [if_neg (by decide), if_pos trivial]
        rw [show parseRef ('&' :: 'a' :: 'm' :: 'p' :: ';' :: (escTextChars v2 ++ '<' :: rest))
            = some ('&', escTextChars v2 ++ '<' :: rest) from rfl]
        dsimp only
        rw [ih f0 rest hf2 hcr2]
      · by_cases h2 : c = '<'
        · subst h2
          rw [show escTextChars ('<' :: v2) ++ '<' :: rest
              = '&' :: 'l' :: 't' :: ';' :: (escTextChars v2 ++ '<' :: rest) from by
            simp [escTextChars, escTextChar]]
          simp only [parseTextAux]
          rw [if_neg (by decide), if_pos trivial]
          rw [show parseRef ('&' :: 'l' :: 't' :: ';' :: (escTextChars v2 ++ '<' :: rest))
              = some ('<', escTextChars v2 ++ '<' :: rest) from rfl]
          dsimp only
          rw [ih f0 rest hf2 hcr2]
        · by_cases h3 : c = '>'
          · subst h3
            rw [show escTextChars ('>' :: v2) ++ '<' :: rest
                = '&' :: 'g' :: 't' :: ';' :: (escTextChars v2 ++ '<' :: rest) from by
              simp [escTextChars, escTextChar]]
            simp only [parseTextAux]
            rw [if_neg (by decide), if_pos trivial]
            rw [show parseRef ('&' :: 'g' :: 't' :: ';' :: (escTextChars v2 ++ '<' :: rest))
                = some ('>', escTextChars v2 ++ '<' :: rest) from rfl]
            dsimp only
            rw [ih f0 rest hf2 hcr2]
          · have h5 : ¬ c = '\r' := hcr c (List.mem_cons_self c v2)
            have hch : escTextChar c = [c] := by
              unfold escTextChar
              rw [if_neg h1, if_neg h2, if_neg h3]
            rw [show escTextChars (c :: v2) ++ '<' :: rest
                = escTextChar c ++ (escTextChars v2 ++ '<' :: rest) from by
              simp [escTextChars]]
            rw [hch]
            rw [show [c] ++ (escTextChars v2 ++ '<' :: rest)
                = c :: (escTextChars v2 ++ '<' :: rest) from rfl]
            simp only [parseTextAux]
            rw [if_neg h2, if_neg h1, if_neg h5]
            rw [ih f0 rest hf2 hcr2]

/-! ## Serialized attribute lists reparse to themselves -/

theorem parseAttrs_serializeAttrs (attrs : AttrList) : ∀ f seen rest,
    attrs.length + 1 ≤ f →
    attrs.all (fun kv => validNameStr kv.1) = true →
    distinctKeys attrs = true →
    (∀ k2, seen.contains k2 = true → keyNotIn k2 attrs = true) →
    (∃ c r2, skipWs rest = c :: r2 ∧ (c = '>' ∨ c = '/')) →
    parseAttrs f seen (serializeAttrs attrs ++ rest) = some (attrs, skipWs rest) := by
  induction attrs with
  | nil =>
    intro f seen rest hf hall hdk hseen hrest
    cases f with
    | zero => simp at hf
    | succ f0 =>
      obtain ⟨c, r2, hsk, hc⟩ := hrest
      rw [show serializeAttrs [] ++ rest = rest from by simp [serializeAttrs]]
      simp only [parseAttrs]
      rw [hsk]
      dsimp only
      rw [if_pos (by rcases hc with rfl | rfl <;> simp)]
  | cons kv r ih =>
    obtain ⟨k, v⟩ := kv
    intro f seen rest hf hall hdk hseen hrest
    cases f with
    | zero => simp at hf
    | succ f0 =>
      simp only [List.all_cons, Bool.and_eq_true] at hall
      obtain ⟨hvk, hall2⟩ := hall
      simp only [distinctKeys, Bool.and_eq_true] at hdk
      obtain ⟨hkNotR, hdk2⟩ := hdk
      cases hkd : k.data with
      | nil =>
        exfalso
        have h0 := hvk
        unfold validNameStr at h0
        rw [hkd] at h0
        cases h0
      | cons c0 ktail =>
        have hstart : isNameStartChar c0 = true ∧ ktail.all isNameChar = true := by
          have h0 := hvk
          unfold validNameStr at h0
          rw [hkd] at h0
          simpa [Bool.and_eq_true] using h0
        rw [show serializeAttrs ((k, v) :: r) ++ rest
            = ' ' :: (k.data ++
                ('=' :: '"' :: (escAttribChars v.data ++ '"' :: (serializeAttrs r ++ rest))))
            from by simp [serializeAttrs]]
        simp only [parseAttrs]
        rw [skipWs_cons_ws ' ' _ (by decide)]
        rw [hkd]
        simp only [List.cons_append]
        rw [skipWs_cons_not_ws c0 _ (nameStart_not_ws c0 hstart.1)]
        dsimp only
        rw [if_neg (by rw [nameStart_not_slash_gt c0 hstart.1]; simp)]
        rw [show c0 :: (ktail ++
              ('=' :: '"' :: (escAttribChars v.data ++ '"' :: (serializeAttrs r ++ rest))))
            = k.data ++
              ('=' :: '"' :: (escAttribChars v.data ++ '"' :: (serializeAttrs r ++ rest)))
            from by rw [hkd]; rfl]
        rw [parseNameTok_append k _ hvk (by intro c2 r2 he; cases he; decide)]
        dsimp only
        have hcont : seen.contains k = false := by
          by_contra hcc
          rw [Bool.not_eq_false] at hcc
          have h0 := hseen k hcc
          simp [keyNotIn] at h0
        rw [if_neg (by rw [hcont]; decide)]
        rw [skipWs_cons_not_ws '=' _ (by decide)]
        dsimp only
        rw [if_pos rfl]
        rw [skipWs_cons_not_ws '"' _ (by decide)]
        dsimp only
        rw [if_pos (by decide)]
        rw [parseAttrValue_escAttrib v.data _ _ (by
          simp only [List.length_append, List.length_cons]
          have := escAttribChars_length_ge v.data
          omega)]
        dsimp only
        rw [ih f0 (k :: seen) rest (by simp only [List.length_cons] at hf; omega) hall2 hdk2
          (by
            intro k2 hk2
            have he : (k :: seen).contains k2 = ((k2 == k) || seen.contains k2) := rfl
            rw [he] at hk2
            rcases Bool.or_eq_true _ _ |>.mp hk2 with h0 | h0
            · have : k2 = k := by simpa using h0
              subst this
              exact hkNotR
            · have h1 := hseen k2 h0
              simp only [keyNotIn, Bool.and_eq_true] at h1
              exact h1.2)
          hrest]

/-! ## Remaining round-trip helpers -/

theorem noAdjText_tail (n : Node) (l : List Node) (h : noAdjText (n :: l) = true) :
    noAdjText l = true := by
  cases l with
  | nil => rfl
  | cons m ms =>
    rw [show noAdjText (n :: m :: ms)
        = (!(isTextNode n && isTextNode m) && noAdjText (m :: ms)) from rfl] at h
    simp only [Bool.and_eq_true] at h
    exact h.2

theorem serializeAttrs_append_head (attrs : AttrList) (x0 : Char) (xr : List Char)
    (hx : isNameChar x0 = false) :
    ∀ c r2, serializeAttrs attrs ++ x0 :: xr = c :: r2 → isNameChar c = false := by
  intro c r2 he
  cases attrs with
  | nil =>
    rw [show serializeAttrs [] ++ x0 :: xr = x0 :: xr from rfl] at he
    cases he
    exact hx
  | cons kv r =>
    obtain ⟨k, v⟩ := kv
    rw [show serializeAttrs ((k, v) :: r) ++ x0 :: xr
        = ' ' :: ((k.data ++ '=' :: '"' :: (escAttribChars v.data ++ '"' :: serializeAttrs r))
            ++ x0 :: xr) from by simp [serializeAttrs]] at he
    cases he
    decide

theorem escTextChars_head (s : List Char) (hne : s ≠ []) :
    ∃ c0 r0, escTextChars s = c0 :: r0 ∧ ¬ c0 = '<' := by
  cases s with
  | nil => exact absurd rfl hne
  | cons c r =>
    by_cases h1 : c = '&'
    · subst h1
      exact ⟨'&', 'a' :: 'm' :: 'p' :: ';' :: escTextChars r,
        by simp [escTextChars, escTextChar], by decide⟩
    · by_cases h2 : c = '<'
      · subst h2
        exact ⟨'&', 'l' :: 't' :: ';' :: escTextChars r,
          by simp [escTextChars, escTextChar], by decide⟩
      · by_cases h3 : c = '>'
        · subst h3
          exact ⟨'&', 'g' :: 't' :: ';' :: escTextChars r,
            by simp [escTextChars, escTextChar], by decide⟩
        · refine ⟨c, escTextChars r, ?_, h2⟩
          have hch : escTextChar c = [c] := by
            unfold escTextChar
            rw [if_neg h1, if_neg h2, if_neg h3]
          simp [escTextChars, hch]

theorem count_le_len :
    (∀ t, wfNode t = true → countNode t ≤ (serializeNode t).length) ∧
    (∀ l, wfChildren l = true → countNodes l ≤ (serializeNodes l).length) := by
  apply nodeInd
  · intro s hwf
    have hne : s.data ≠ [] := by
      intro hd
      rw [show wfNode (.text s) = !s.data.isEmpty from rfl, hd] at hwf
      cases hwf
    have h1 : 1 ≤ s.data.length := by
      cases hd : s.data with
      | nil => exact absurd hd hne
      | cons _ _ => simp [hd]
    have h2 := escTextChars_length_ge s.data
    rw [show countNode (.text s) = 1 from rfl,
      show serializeNode (.text s) = escTextChars s.data from rfl]
    omega
  · intro tag attrs cs hQ hwf
    have hch : wfChildren cs = true := by
      rw [show wfNode (.element tag attrs cs)
          = (validNameStr tag && attrs.all (fun kv => validNameStr kv.1) && distinctKeys attrs &&
              noAdjText cs && wfChildren cs) from rfl] at hwf
      simp only [Bool.and_eq_true] at hwf
      exact hwf.2
    have ih := hQ hch
    rw [show countNode (.element tag attrs cs) = countNodes cs + 2 from rfl]
    cases cs with
    | nil =>
      rw [show serializeNode (.element tag attrs [])
          = '<' :: (tag.data ++ serializeAttrs attrs ++ [' ', '/', '>']) from rfl]
      rw [show countNodes ([] : List Node) = 0 from rfl]
      simp only [List.length_cons, List.length_append]
      omega
    | cons n ns =>
      rw [show serializeNode (.element tag attrs (n :: ns))
          = '<' :: (tag.data ++ serializeAttrs attrs ++
              ('>' :: (serializeNodes (n :: ns) ++ '<' :: '/' :: (tag.data ++ ['>'])))) from rfl]
      simp only [List.length_cons, List.length_append]
      omega
  · intro _
    rw [show countNodes ([] : List Node) = 0 from rfl]
    omega
  · intro n l hP hQ hwf
    rw [show wfChildren (n :: l) = (wfNode n && wfChildren l) from rfl] at hwf
    simp only [Bool.and_eq_true] at hwf
    rw [show countNodes (n :: l) = countNode n + countNodes l from rfl,
      show serializeNodes (n :: l) = serializeNode n ++ serializeNodes l from rfl]
    simp only [List.length_append]
    have h1 := hP hwf.1
    have h2 := hQ hwf.2
    omega

theorem serializeNode_element_shape (tagE : String) (attrsE : AttrList) (csE : List Node)
    (htagE : validNameStr tagE = true) :
    ∃ c0 b, serializeNode (.element tagE attrsE csE) = '<' :: c0 :: b ∧
      isNameStartChar c0 = true := by
  cases hkd : tagE.data with
  | nil =>
    exfalso
    unfold validNameStr at htagE
    rw [hkd] at htagE
    cases htagE
  | cons c0 kt =>
    have hc0 : isNameStartChar c0 = true := by
      unfold validNameStr at htagE
      rw [hkd] at htagE
      simp only [Bool.and_eq_true] at htagE
      exact htagE.1
    cases csE with
    | nil =>
      exact ⟨c0, (kt ++ serializeAttrs attrsE) ++ [' ', '/', '>'],
        by simp [serializeNode, hkd], hc0⟩
    | cons m ms =>
      exact ⟨c0, (kt ++ serializeAttrs attrsE) ++
          ('>' :: (serializeNodes (m :: ms) ++ '<' :: '/' :: (tagE.data ++ ['>']))),
        by simp [serializeNode, hkd], hc0⟩

/-! ## Serialized well-formed CR-free trees reparse to themselves -/

theorem serialize_reparse :
    (∀ t, ∀ tag attrs cs, t = .element tag attrs cs → wfNode t = true → noCRNode t = true →
      ∀ f rest, countNode t ≤ f →
        parseElement f (serializeNode t ++ rest) = some (t, rest)) ∧
    (∀ l, wfChildren l = true → noAdjText l = true → noCRChildren l = true →
      ∀ f rest, countNodes l + 1 ≤ f →
        parseNodes f (serializeNodes l ++ '<' :: '/' :: rest) = some (l, '<' :: '/' :: rest)) := by
  apply nodeInd
  · intro s tag attrs cs heq
    cases heq
  · intro tag attrs cs hQ tag2 attrs2 cs2 heq hwf hcr f rest hf
    cases heq
    rw [show wfNode (.element tag attrs cs)
        = (validNameStr tag && attrs.all (fun kv => validNameStr kv.1) && distinctKeys attrs &&
            noAdjText cs && wfChildren cs) from rfl] at hwf
    simp only [Bool.and_eq_true] at hwf
    obtain ⟨⟨⟨⟨htag, hall⟩, hdk⟩, hadj⟩, hch⟩ := hwf
    have hcrc : noCRChildren cs = true := hcr
    rw [show countNode (.element tag attrs cs) = countNodes cs + 2 from rfl] at hf
    cases f with
    | zero => omega
    | succ f0 =>
      have hf0 : countNodes cs + 1 ≤ f0 := by omega
      cases cs with
      | nil =>
        rw [show serializeNode (.element tag attrs []) ++ rest
            = '<' :: (tag.data ++ (serializeAttrs attrs ++ (' ' :: '/' :: '>' :: rest)))
            from by simp [serializeNode]]
        simp only [parseElement]
        rw [if_pos trivial]
        rw [parseNameTok_append tag _ htag
          (serializeAttrs_append_head attrs ' ' ('/' :: '>' :: rest) (by decide))]
        try dsimp only
        rw [parseAttrs_serializeAttrs attrs _ [] (' ' :: '/' :: '>' :: rest)
          (by
            simp only [List.length_append]
            have := serializeAttrs_length_ge attrs
            omega)
          hall hdk (by intro k2 hk2; cases hk2)
          ⟨'/', '>' :: rest, by
            rw [skipWs_cons_ws ' ' _ (by decide), skipWs_cons_not_ws '/' _ (by decide)],
            Or.inr rfl⟩]
        rw [skipWs_cons_ws ' ' _ (by decide), skipWs_cons_not_ws '/' _ (by decide)]
        try dsimp only
        rw [if_pos rfl]
        try dsimp only
        rw [if_pos rfl]
      | cons n ns =>
        rw [show serializeNode (.element tag attrs (n :: ns)) ++ rest
            = '<' :: (tag.data ++ (serializeAttrs attrs ++
                ('>' :: (serializeNodes (n :: ns) ++
                    '<' :: '/' :: (tag.data ++ '>' :: rest)))))
            from by simp [serializeNode]]
        simp only [parseElement]
        rw [if_pos trivial]
        rw [parseNameTok_append tag _ htag
          (serializeAttrs_append_head attrs '>' _ (by decide))]
        try dsimp only
        rw [parseAttrs_serializeAttrs attrs _ []
          ('>' :: (serializeNodes (n :: ns) ++ '<' :: '/' :: (tag.data ++ '>' :: rest)))
          (by
            simp only [List.length_append]
            have := serializeAttrs_length_ge attrs
            omega)
          hall hdk (by intro k2 hk2; cases hk2)
          ⟨'>', serializeNodes (n :: ns) ++ '<' :: '/' :: (tag.data ++ '>' :: rest),
            by rw [skipWs_cons_not_ws '>' _ (by decide)], Or.inl rfl⟩]
        rw [skipWs_cons_not_ws '>' _ (by decide)]
        try dsimp only
        rw [if_neg (by decide), if_pos rfl]
        rw [hQ hch hadj hcrc f0 (tag.data ++ '>' :: rest) hf0]
        try dsimp only
        rw [if_pos (by decide)]
        rw [parseNameTok_append tag _ htag (by intro c2 r2 he; cases he; decide)]
        try dsimp only
        rw [if_pos rfl]
        rw [skipWs_cons_not_ws '>' _ (by decide)]
        try dsimp only
        rw [if_pos rfl]
  · intro hwf hadj hcr f rest hf
    rw [show countNodes ([] : List Node) = 0 from rfl] at hf
    cases f with
    | zero => omega
    | succ f0 =>
      rw [show serializeNodes [] ++ '<' :: '/' :: rest = '<' :: '/' :: rest from rfl]
      simp only [parseNodes]
      rw [if_pos trivial]
      rw [if_pos (show headIsSlash ('/' :: rest) = true from rfl)]
  · intro n l hP hQc hwfc hadjc hcrc f rest hf
    rw [show wfChildren (n :: l) = (wfNode n && wfChildren l) from rfl] at hwfc
    simp only [Bool.and_eq_true] at hwfc
    obtain ⟨hwfn, hwfl⟩ := hwfc
    rw [show noCRChildren (n :: l) = (noCRNode n && noCRChildren l) from rfl] at hcrc
    simp only [Bool.and_eq_true] at hcrc
    obtain ⟨hcrn, hcrl⟩ := hcrc
    have hadjl : noAdjText l = true := noAdjText_tail n l hadjc
    rw [show countNodes (n :: l) = countNode n + countNodes l from rfl] at hf
    cases f with
    | zero =>
      exfalso
      have h1 : 1 ≤ countNode n := by
        cases n with
        | text s => rw [show countNode (.text s) = 1 from rfl]
        | element t2 a2 c2 =>
          rw [show countNode (.element t2 a2 c2) = countNodes c2 + 2 from rfl]
          omega
      omega
    | succ f0 =>
      cases n with
      | element tagE attrsE csE =>
        rw [show countNode (.element tagE attrsE csE) = countNodes csE + 2 from rfl] at hf
        have hfE : countNode (.element tagE attrsE csE) ≤ f0 := by
          rw [show countNode (.element tagE attrsE csE) = countNodes csE + 2 from rfl]
          omega
        have hfl : countNodes l + 1 ≤ f0 := by omega
        have htagE : validNameStr tagE = true := by
          have h0 := hwfn
          rw [show wfNode (.element tagE attrsE csE)
              = (validNameStr tagE && attrsE.all (fun kv => validNameStr kv.1) &&
                  distinctKeys attrsE && noAdjText csE && wfChildren csE) from rfl] at h0
          simp only [Bool.and_eq_true] at h0
          exact h0.1.1.1.1
        obtain ⟨c0, b, hserE, hc0⟩ := serializeNode_element_shape tagE attrsE csE htagE
        rw [show serializeNodes (.element tagE attrsE csE :: l) ++ '<' :: '/' :: rest
            = serializeNode (.element tagE attrsE csE) ++ (serializeNodes l ++ '<' :: '/' :: rest)
            from by simp [serializeNodes]]
        rw [hserE]
        rw [show ('<' :: c0 :: b) ++ (serializeNodes l ++ '<' :: '/' :: rest)
            = '<' :: (c0 :: (b ++ (serializeNodes l ++ '<' :: '/' :: rest))) from rfl]
        simp only [parseNodes]
        rw [if_pos trivial]
        rw [if_neg (by
          rw [show headIsSlash (c0 :: (b ++ (serializeNodes l ++ '<' :: '/' :: rest)))
              = decide (c0 = '/') from rfl]
          simp [nameStart_ne_slash c0 hc0])]
        rw [show '<' :: (c0 :: (b ++ (serializeNodes l ++ '<' :: '/' :: rest)))
            = serializeNode (.element tagE attrsE csE) ++ (serializeNodes l ++ '<' :: '/' :: rest)
            from by rw [hserE]; rfl]
        rw [hP tagE attrsE csE rfl hwfn hcrn f0 _ hfE]
        try dsimp only
        rw [hQc hwfl hadjl hcrl f0 rest hfl]
      | text s =>
        rw [show countNode (.text s) = 1 from rfl] at hf
        have hfl : countNodes l + 1 ≤ f0 := by omega
        have hne : s.data ≠ [] := by
          intro hd
          rw [show wfNode (.text s) = !s.data.isEmpty from rfl, hd] at hwfn
          cases hwfn
        have hcrs : ∀ c2, c2 ∈ s.data → ¬ c2 = '\r' := by
          rw [show noCRNode (.text s) = s.data.all (fun c => !(c = '\r')) from rfl] at hcrn
          intro c2 hc2
          have h0 := (List.all_eq_true.mp hcrn) c2 hc2
          simpa using h0
        obtain ⟨c0, r0, hesc, hc0⟩ := escTextChars_head s.data hne
        have hTAIL : ∃ rest5, serializeNodes l ++ '<' :: '/' :: rest = '<' :: rest5 := by
          cases l with
          | nil => exact ⟨'/' :: rest, rfl⟩
          | cons m ms =>
            cases m with
            | text s2 =>
              exfalso
              rw [show noAdjText (.text s :: .text s2 :: ms)
                  = (!(isTextNode (.text s) && isTextNode (.text s2)) &&
                      noAdjText (.text s2 :: ms)) from rfl] at hadjc
              simp [isTextNode] at hadjc
            | element tm am cm =>
              obtain ⟨bb, hbb⟩ : ∃ bb, serializeNode (.element tm am cm) = '<' :: bb := ⟨_, rfl⟩
              refine ⟨bb ++ (serializeNodes ms ++ '<' :: '/' :: rest), ?_⟩
              rw [show serializeNodes (.element tm am cm :: ms) ++ '<' :: '/' :: rest
                  = serializeNode (.element tm am cm) ++ (serializeNodes ms ++ '<' :: '/' :: rest)
                  from by simp [serializeNodes]]
              rw [hbb]
              rfl
        obtain ⟨rest5, hrest5⟩ := hTAIL
        rw [show serializeNodes (.text s :: l) ++ '<' :: '/' :: rest
            = escTextChars s.data ++ (serializeNodes l ++ '<' :: '/' :: rest) from by
          simp [serializeNodes, serializeNode]]
        rw [hrest5, hesc]
        rw [show (c0 :: r0) ++ '<' :: rest5 = c0 :: (r0 ++ '<' :: rest5) from rfl]
        simp only [parseNodes]
        rw [if_neg hc0]
        rw [show c0 :: (r0 ++ '<' :: rest5) = escTextChars s.data ++ '<' :: rest5 from by
          rw [hesc]
          rfl]
        rw [parseText_escText s.data ((escTextChars s.data ++ '<' :: rest5).length + 1) rest5
          (by
            simp only [List.length_append, List.length_cons]
            have := escTextChars_length_ge s.data
            omega)
          hcrs]
        try dsimp only
        rw [show '<' :: rest5 = serializeNodes l ++ '<' :: '/' :: rest from hrest5.symm]
        rw [hQc hwfl hadjl hcrl f0 rest hfl]

/-! ## The parser produces well-formed trees -/

theorem spanWhile_all (p : Char → Bool) : ∀ l, (spanWhile p l).1.all p = true := by
  intro l
  induction l with
  | nil => rfl
  | cons c r ih =>
    by_cases hc : p c
    · simp [spanWhile, hc, ih]
    · simp [spanWhile, hc]

theorem parseNameTok_valid (l : List Char) (s : String) (r : List Char)
    (h : parseNameTok l = some (s, r)) : validNameStr s = true := by
  cases l with
  | nil => cases h
  | cons c cs =>
    simp only [parseNameTok] at h
    by_cases hc : isNameStartChar c = true
    · rw [if_pos hc] at h
      rw [Option.some.injEq, Prod.mk.injEq] at h
      obtain ⟨hs, _⟩ := h
      subst hs
      unfold validNameStr
      rw [show (⟨c :: (spanWhile isNameChar cs).1⟩ : String).data
          = c :: (spanWhile isNameChar cs).1 from rfl]
      simp [hc, spanWhile_all]
    · rw [if_neg hc] at h
      cases h

theorem parseNodes_nil_input (f : Nat) : parseNodes f [] = none := by
  cases f <;> rfl

theorem parseAttrs_wf : ∀ f seen l as r, parseAttrs f seen l = some (as, r) →
    as.all (fun kv => validNameStr kv.1) = true ∧ distinctKeys as = true ∧
      (∀ k2, seen.contains k2 = true → keyNotIn k2 as = true) := by
  intro f
  induction f with
  | zero => intro seen l as r h; cases h
  | succ f0 ih =>
    intro seen l as r h
    simp only [parseAttrs] at h
    cases hsk : skipWs l with
    | nil => rw [hsk] at h; cases h
    | cons c rest =>
      rw [hsk] at h
      try dsimp only at h
      by_cases hc : (c = '>' || c = '/') = true
      · rw [if_pos hc] at h
        rw [Option.some.injEq, Prod.mk.injEq] at h
        obtain ⟨h1, _⟩ := h
        subst h1
        exact ⟨rfl, rfl, fun k2 _ => rfl⟩
      · rw [if_neg hc] at h
        cases hpn : parseNameTok (c :: rest) with
        | none => rw [hpn] at h; cases h
        | some pr =>
          obtain ⟨k, r1⟩ := pr
          rw [hpn] at h
          try dsimp only at h
          by_cases hcont : seen.contains k = true
          · rw [if_pos hcont] at h; cases h
          · rw [if_neg hcont] at h
            cases hsk2 : skipWs r1 with
            | nil => rw [hsk2] at h; cases h
            | cons c1 r2 =>
              rw [hsk2] at h
              try dsimp only at h
              by_cases hc1 : c1 = '='
              · rw [if_pos hc1] at h
                cases hsk3 : skipWs r2 with
                | nil => rw [hsk3] at h; cases h
                | cons q r3 =>
                  rw [hsk3] at h
                  try dsimp only at h
                  by_cases hq : (q = '"' || q = '\'') = true
                  · rw [if_pos hq] at h
                    cases hav : parseAttrValueAux q (r3.length + 1) r3 with
                    | none => rw [hav] at h; cases h
                    | some pv =>
                      obtain ⟨v, r4⟩ := pv
                      rw [hav] at h
                      try dsimp only at h
                      cases hrec : parseAttrs f0 (k :: seen) r4 with
                      | none => rw [hrec] at h; cases h
                      | some pa =>
                        obtain ⟨as2, r5⟩ := pa
                        rw [hrec] at h
                        try dsimp only at h
                        rw [Option.some.injEq, Prod.mk.injEq] at h
                        obtain ⟨h1, _⟩ := h
                        subst h1
                        obtain ⟨ha, hd, hs⟩ := ih (k :: seen) r4 as2 r5 hrec
                        have hkvalid := parseNameTok_valid _ _ _ hpn
                        have hcontk : (k :: seen).contains k = true := by
                          rw [show (k :: seen).contains k
                              = (k == k || seen.contains k) from rfl]
                          simp
                        refine ⟨by simp [List.all_cons, hkvalid, ha], ?_, ?_⟩
                        · have hk : keyNotIn k as2 = true := hs k hcontk
                          simp [distinctKeys, hk, hd]
                        · intro k2 hk2
                          have hcont2 : (k :: seen).contains k2 = true := by
                            rw [show (k :: seen).contains k2
                                = (k2 == k || seen.contains k2) from rfl]
                            rw [hk2]
                            simp
                          have h4 := hs k2 hcont2
                          have hne : ¬ k = k2 := by
                            intro heq
                            subst heq
                            exact hcont hk2
                          simp [keyNotIn, h4, hne]
                  · rw [if_neg hq] at h; cases h
              · rw [if_neg hc1] at h; cases h

theorem parseTextAux_facts : ∀ f l v r, parseTextAux f l = some (v, r) →
    (r = [] ∨ ∃ r2, r = '<' :: r2) ∧ (∀ c cr, l = c :: cr → ¬ c = '<' → v ≠ []) := by
  intro f
  induction f with
  | zero => intro l v r h; cases h
  | succ f0 ih =>
    intro l v r h
    cases l with
    | nil =>
      rw [show parseTextAux (f0 + 1) [] = some ([], []) from rfl] at h
      rw [Option.some.injEq, Prod.mk.injEq] at h
      obtain ⟨h1, h2⟩ := h
      subst h1
      subst h2
      exact ⟨Or.inl rfl, fun c cr hc => by cases hc⟩
    | cons c cr =>
      simp only [parseTextAux] at h
      by_cases h1 : c = '<'
      · rw [if_pos h1] at h
        rw [Option.some.injEq, Prod.mk.injEq] at h
        obtain ⟨hv, hr⟩ := h
        subst hv
        subst hr
        refine ⟨Or.inr ⟨cr, by rw [h1]⟩, ?_⟩
        intro c2 cr2 he hne
        cases he
        exact absurd h1 hne
      · rw [if_neg h1] at h
        by_cases h2 : c = '&'
        · rw [if_pos h2] at h
          cases hpr : parseRef (c :: cr) with
          | none => rw [hpr] at h; cases h
          | some pr =>
            obtain ⟨ch, r1⟩ := pr
            rw [hpr] at h
            try dsimp only at h
            cases hrec : parseTextAux f0 r1 with
            | none => rw [hrec] at h; cases h
            | some pv =>
              obtain ⟨v2, r2⟩ := pv
              rw [hrec] at h
              try dsimp only at h
              rw [Option.some.injEq, Prod.mk.injEq] at h
              obtain ⟨hv, hr⟩ := h
              subst hv
              subst hr
              exact ⟨(ih r1 v2 r2 hrec).1, fun _ _ _ _ => by simp⟩
        · rw [if_neg h2] at h
          by_cases h3 : c = '\r'
          · rw [if_pos h3] at h
            split at h
            · cases hrec : parseTextAux f0 _ with
              | none => rw [hrec] at h; cases h
              | some pv =>
                obtain ⟨v2, r2⟩ := pv
                rw [hrec] at h
                try dsimp only at h
                rw [Option.some.injEq, Prod.mk.injEq] at h
                obtain ⟨hv, hr⟩ := h
                subst hv
                subst hr
                exact ⟨(ih _ v2 r2 hrec).1, fun _ _ _ _ => by simp⟩
            · cases hrec : parseTextAux f0 cr with
              | none => rw [hrec] at h; cases h
              | some pv =>
                obtain ⟨v2, r2⟩ := pv
                rw [hrec] at h
                try dsimp only at h
                rw [Option.some.injEq, Prod.mk.injEq] at h
                obtain ⟨hv, hr⟩ := h
                subst hv
                subst hr
                exact ⟨(ih cr v2 r2 hrec).1, fun _ _ _ _ => by simp⟩
          · rw [if_neg h3] at h
            cases hrec : parseTextAux f0 cr with
            | none => rw [hrec] at h; cases h
            | some pv =>
              obtain ⟨v2, r2⟩ := pv
              rw [hrec] at h
              try dsimp only at h
              rw [Option.some.injEq, Prod.mk.injEq] at h
              obtain ⟨hv, hr⟩ := h
              subst hv
              subst hr
              exact ⟨(ih cr v2 r2 hrec).1, fun _ _ _ _ => by simp⟩

theorem headNotText_cons_elem {n : Node} {ns : List Node} (h : isTextNode n = false) :
    headNotText (n :: ns) = true := by
  cases n with
  | text s => cases h
  | element t a c => rfl

theorem noAdjText_cons_elem {n : Node} {ns : List Node} (h : isTextNode n = false)
    (h2 : noAdjText ns = true) : noAdjText (n :: ns) = true := by
  cases ns with
  | nil => rfl
  | cons b r => simp [noAdjText, h, h2]

theorem noAdjText_cons_of_headNotText {a : Node} {ns : List Node}
    (h : headNotText ns = true) (h2 : noAdjText ns = true) : noAdjText (a :: ns) = true := by
  cases ns with
  | nil => rfl
  | cons b r =>
    cases b with
    | text s => cases h
    | element t2 a2 c2 => simp [noAdjText, isTextNode, h2]

theorem parse_wf : ∀ f,
    (∀ l t r, parseElement f l = some (t, r) → wfNode t = true ∧ isTextNode t = false) ∧
    (∀ l cl r, parseNodes f l = some (cl, r) →
      wfChildren cl = true ∧ noAdjText cl = true ∧
        (∀ c0 r0, l = c0 :: r0 → c0 = '<' → headNotText cl = true)) := by
  intro f
  induction f with
  | zero =>
    constructor
    · intro l t r h
      rw [show parseElement 0 l = none from rfl] at h
      cases h
    · intro l cl r h
      rw [show parseNodes 0 l = none from rfl] at h
      cases h
  | succ f0 ih =>
    obtain ⟨ihE, ihN⟩ := ih
    constructor
    · intro l t r h
      simp only [parseElement] at h
      cases l with
      | nil => cases h
      | cons c r0 =>
        try dsimp only at h
        by_cases hc : c = '<'
        · rw [if_pos hc] at h
          cases hpn : parseNameTok r0 with
          | none => rw [hpn] at h; cases h
          | some p1 =>
            obtain ⟨tag, r1⟩ := p1
            rw [hpn] at h
            try dsimp only at h
            cases hpa : parseAttrs (r1.length + 1) [] r1 with
            | none => rw [hpa] at h; cases h
            | some p2 =>
              obtain ⟨attrs, r2⟩ := p2
              rw [hpa] at h
              try dsimp only at h
              have htag := parseNameTok_valid _ _ _ hpn
              obtain ⟨hall, hdk, _⟩ := parseAttrs_wf _ _ _ _ _ hpa
              cases r2 with
              | nil =>
                try dsimp only at h
                cases h
              | cons c2 r3 =>
                try dsimp only at h
                by_cases hc2 : c2 = '/'
                · rw [if_pos hc2] at h
                  cases r3 with
                  | nil =>
                    try dsimp only at h
                    cases h
                  | cons c3 r4 =>
                    try dsimp only at h
                    by_cases hc3 : c3 = '>'
                    · rw [if_pos hc3] at h
                      rw [Option.some.injEq, Prod.mk.injEq] at h
                      obtain ⟨h1, _⟩ := h
                      subst h1
                      refine ⟨?_, rfl⟩
                      simp [wfNode, wfChildren, noAdjText, htag, hall, hdk]
                    · rw [if_neg hc3] at h; cases h
                · rw [if_neg hc2] at h
                  by_cases hc2b : c2 = '>'
                  · rw [if_pos hc2b] at h
                    cases hpn2 : parseNodes f0 r3 with
                    | none => rw [hpn2] at h; cases h
                    | some p3 =>
                      obtain ⟨children, r4⟩ := p3
                      rw [hpn2] at h
                      try dsimp only at h
                      obtain ⟨hwc, hadj, _⟩ := ihN r3 children r4 hpn2
                      cases r4 with
                      | nil =>
                        try dsimp only at h
                        cases h
                      | cons c4 r45 =>
                        cases r45 with
                        | nil =>
                          try dsimp only at h
                          cases h
                        | cons c5 r5 =>
                          try dsimp only at h
                          by_cases hb : (c4 = '<' && c5 = '/') = true
                          · rw [if_pos hb] at h
                            cases hpn3 : parseNameTok r5 with
                            | none => rw [hpn3] at h; cases h
                            | some p4 =>
                              obtain ⟨cname, r6⟩ := p4
                              rw [hpn3] at h
                              try dsimp only at h
                              by_cases hcn : cname = tag
                              · rw [if_pos hcn] at h
                                cases hsk : skipWs r6 with
                                | nil => rw [hsk] at h; cases h
                                | cons c6 r7 =>
                                  rw [hsk] at h
                                  try dsimp only at h
                                  by_cases hc6 : c6 = '>'
                                  · rw [if_pos hc6] at h
                                    rw [Option.some.injEq, Prod.mk.injEq] at h
                                    obtain ⟨h1, _⟩ := h
                                    subst h1
                                    refine ⟨?_, rfl⟩
                                    simp [wfNode, htag, hall, hdk, hadj, hwc]
                                  · rw [if_neg hc6] at h; cases h
                              · rw [if_neg hcn] at h; cases h
                          · rw [if_neg hb] at h; cases h
                  · rw [if_neg hc2b] at h; cases h
        · rw [if_neg hc] at h; cases h
    · intro l cl r h
      simp only [parseNodes] at h
      cases l with
      | nil => cases h
      | cons c rr =>
        try dsimp only at h
        by_cases hc : c = '<'
        · rw [if_pos hc] at h
          by_cases hhs : headIsSlash rr = true
          · rw [if_pos hhs] at h
            rw [Option.some.injEq, Prod.mk.injEq] at h
            obtain ⟨h1, _⟩ := h
            subst h1
            exact ⟨rfl, rfl, fun _ _ _ _ => rfl⟩
          · rw [if_neg hhs] at h
            cases hpe : parseElement f0 (c :: rr) with
            | none => rw [hpe] at h; cases h
            | some p1 =>
              obtain ⟨n, r1⟩ := p1
              rw [hpe] at h
              try dsimp only at h
              cases hpn2 : parseNodes f0 r1 with
              | none => rw [hpn2] at h; cases h
              | some p2 =>
                obtain ⟨ns, r2⟩ := p2
                rw [hpn2] at h
                rw [Option.some.injEq, Prod.mk.injEq] at h
                obtain ⟨h1, _⟩ := h
                subst h1
                obtain ⟨hwn, hnt⟩ := ihE (c :: rr) n r1 hpe
                obtain ⟨hwc, hadj, _⟩ := ihN r1 ns r2 hpn2
                exact ⟨by simp [wfChildren, hwn, hwc], noAdjText_cons_elem hnt hadj,
                  fun _ _ _ _ => headNotText_cons_elem hnt⟩
        · rw [if_neg hc] at h
          cases hpt : parseTextAux ((c :: rr).length + 1) (c :: rr) with
          | none => rw [hpt] at h; cases h
          | some p1 =>
            obtain ⟨t1, r1⟩ := p1
            rw [hpt] at h
            try dsimp only at h
            cases hpn2 : parseNodes f0 r1 with
            | none => rw [hpn2] at h; cases h
            | some p2 =>
              obtain ⟨ns, r2⟩ := p2
              rw [hpn2] at h
              rw [Option.some.injEq, Prod.mk.injEq] at h
              obtain ⟨h1, _⟩ := h
              subst h1
              obtain ⟨hstop, hne⟩ := parseTextAux_facts _ _ _ _ hpt
              have ht1 : t1 ≠ [] := hne c rr rfl hc
              obtain ⟨hwc, hadj, hh⟩ := ihN r1 ns r2 hpn2
              have hhn : headNotText ns = true := by
                cases hstop with
                | inl h0 =>
                  rw [h0, parseNodes_nil_input] at hpn2
                  cases hpn2
                | inr h0 =>
                  obtain ⟨r2x, hr2x⟩ := h0
                  exact hh '<' r2x hr2x rfl
              refine ⟨?_, noAdjText_cons_of_headNotText hhn hadj, ?_⟩
              · have hw : wfNode (.text ⟨t1⟩) = true := by
                  cases t1 with
                  | nil => exact absurd rfl ht1
                  | cons a b => rfl
                simp [wfChildren, hw, hwc]
              · intro c0 r0 he hlt
                cases he
                exact absurd hlt hc

/-! ## Assembling the whole-document round trip -/

theorem parseXml_some_elem (s : String) (t : Node) (h : parseXml s = some t) :
    wfNode t = true ∧ ∃ tag attrs cs, t = Node.element tag attrs cs := by
  unfold parseXml at h
  cases hpe : parseElement (s.data.length + 1) (skipWs s.data) with
  | none => rw [hpe] at h; cases h
  | some p =>
    obtain ⟨t0, r⟩ := p
    rw [hpe] at h
    try dsimp only at h
    by_cases hsk : skipWs r = []
    · rw [if_pos hsk] at h
      rw [Option.some.injEq] at h
      subst h
      obtain ⟨hwf, hnt⟩ := (parse_wf _).1 _ _ _ hpe
      refine ⟨hwf, ?_⟩
      cases t0 with
      | text s2 => cases hnt
      | element tag attrs cs => exact ⟨tag, attrs, cs, rfl⟩
    · rw [if_neg hsk] at h
      cases h

theorem processRoot_elem (tag : String) (attrs : AttrList) (cs : List Node) (t2 : Node)
    (h : processRoot (.element tag attrs cs) = .ok t2) :
    ∃ cs2, processChildren cs = .ok cs2 ∧ t2 = Node.element tag attrs cs2 := by
  unfold processRoot at h
  try dsimp only at h
  cases hpc : processChildren cs with
  | error e => rw [hpc] at h; cases h
  | ok cs2 =>
    rw [hpc] at h
    try dsimp only at h
    injection h with h2
    exact ⟨cs2, rfl, h2.symm⟩

theorem processRoot_out (tag : String) (attrs : AttrList) (cs cs2 : List Node)
    (hpc : processChildren cs = .ok cs2)
    (hwf : wfNode (.element tag attrs cs) = true) :
    wfNode (.element tag attrs cs2) = true ∧
      processRoot (.element tag attrs cs2) = .ok (.element tag attrs cs2) := by
  rw [show wfNode (.element tag attrs cs) = (validNameStr tag &&
      attrs.all (fun kv => validNameStr kv.1) && distinctKeys attrs &&
      noAdjText cs && wfChildren cs) from rfl] at hwf
  simp only [Bool.and_eq_true] at hwf
  obtain ⟨⟨⟨⟨htag, hall⟩, hdk⟩, hadj⟩, hch⟩ := hwf
  have hwc2 := processNode_wf.2 cs cs2 hpc hch
  have hadj2 : noAdjText cs2 = true := by
    rw [noAdjText_of_map_kind cs2 cs (processNode_kind.2 cs cs2 hpc)]
    exact hadj
  have hid := processNode_idem.2 cs cs2 hpc
  constructor
  · rw [show wfNode (.element tag attrs cs2) = (validNameStr tag &&
        attrs.all (fun kv => validNameStr kv.1) && distinctKeys attrs &&
        noAdjText cs2 && wfChildren cs2) from rfl]
    simp [htag, hall, hdk, hadj2, hwc2]
  · unfold processRoot
    try dsimp only
    rw [hid]

theorem parseXml_serialize (t2 : Node) (tag : String) (attrs : AttrList) (cs : List Node)
    (ht : t2 = .element tag attrs cs)
    (hwf : wfNode t2 = true) (hcr : noCRNode t2 = true) :
    parseXml (serializeXml t2) = some t2 := by
  have hcount : countNode t2 ≤ (serializeNode t2).length + 1 := by
    have := count_le_len.1 t2 hwf
    omega
  have hpe := serialize_reparse.1 t2 tag attrs cs ht hwf hcr
    ((serializeNode t2).length + 1) [] hcount
  rw [List.append_nil] at hpe
  have hsk : skipWs (serializeNode t2) = serializeNode t2 := by
    obtain ⟨b, hb⟩ : ∃ b, serializeNode t2 = '<' :: b := by
      subst ht
      exact ⟨_, rfl⟩
    rw [hb]
    exact skipWs_cons_not_ws '<' b (by decide)
  unfold parseXml
  rw [show (serializeXml t2).data = serializeNode t2 from rfl, hsk, hpe]
  rfl

/-- C6 (amended): the normalizer is idempotent on every input that parses and
processes without an uncaught exception, PROVIDED the processed tree carries no
carriage-return character in its text content: the first pass yields the
serialization of the processed tree, and feeding that serialization back
through the normalizer reproduces it byte-identically.  (The unrestricted
claim is false: a CR reachable via `&#13;` serializes raw and re-reads as LF —
see the counterexample.  The claim's stated reason is also inexact: a skipped
candidate keeps its `svg` tag and still matches the filter on the second pass,
but it is deterministically skipped again.) -/
theorem normalize_idempotent (s : String) (t t2 : Node)
    (hp : parseXml s = some t) (hr : processRoot t = .ok t2)
    (hcr : noCRNode t2 = true) :
    processSvgContent s = .ok (serializeXml t2) ∧
      processSvgContent (serializeXml t2) = .ok (serializeXml t2) := by
  obtain ⟨hwf, tag, attrs, cs, ht⟩ := parseXml_some_elem s t hp
  subst ht
  obtain ⟨cs2, hpc, ht2⟩ := processRoot_elem tag attrs cs t2 hr
  obtain ⟨hwf2, hid⟩ := processRoot_out tag attrs cs cs2 hpc hwf
  rw [ht2] at hcr ⊢
  constructor
  · unfold processSvgContent
    rw [hp]
    try dsimp only
    rw [hr, ht2]
  · have hround := parseXml_serialize (.element tag attrs cs2) tag attrs cs2 rfl hwf2 hcr
    unfold processSvgContent
    rw [hround]
    try dsimp only
    rw [hid]

theorem normalize_idempotent_witness :
    processSvgContent
        "<svg><svg x=\"1\" y=\"2\" width=\"4\" height=\"4\" viewBox=\"0 0 4 4\"/></svg>"
        = .ok (serializeXml (.element "svg" []
            [.element "g" [("transform", "translate(1.0,2.0) scale(1.000,1.000)")] []])) ∧
      processSvgContent (serializeXml (.element "svg" []
            [.element "g" [("transform", "translate(1.0,2.0) scale(1.000,1.000)")] []]))
        = .ok (serializeXml (.element "svg" []
            [.element "g" [("transform", "translate(1.0,2.0) scale(1.000,1.000)")] []])) :=
  normalize_idempotent _
    (.element "svg" [] [.element "svg"
      [("x", "1"), ("y", "2"), ("width", "4"), ("height", "4"), ("viewBox", "0 0 4 4")] []])
    (.element "svg" [] [.element "g"
      [("transform", "translate(1.0,2.0) scale(1.000,1.000)")] []])
    rfl rfl rfl
